import Mathlib

/-!
Verification of the gnome-monitor-switcher scripts (monitor-switch.py and
gdctl-instant.py).  The Python sources are shallowly embedded: strings are
modelled as lists of characters, Python exceptions as Except / Option
failure values, and the external gdctl command results as explicit
parameters.  Numeric conversions (int, float) are modelled over the digit
and decimal strings this program actually feeds them (ASCII digits); float
values are represented exactly as rationals.
-/

namespace GnomeMonitor

/-- Whitespace predicate modelling Python str.strip / regex backslash-s on
the ASCII range. -/
def isPySpace (c : Char) : Bool :=
  c = ' ' ∨ c = '\t' ∨ c = '\n' ∨ c = '\r' ∨ c = '\x0b' ∨ c = '\x0c'

/-- Model of Python str.strip(): drop whitespace from both ends. -/
def stripChars (cs : List Char) : List Char :=
  ((cs.dropWhile isPySpace).reverse.dropWhile isPySpace).reverse

/-- Model of Python str.split(sep) for a single-character separator. -/
def splitOnChar (a : Char) : List Char → List (List Char)
  | [] => [[]]
  | c :: cs =>
    if c = a then [] :: splitOnChar a cs
    else
      match splitOnChar a cs with
      | [] => [[c]]
      | p :: ps => (c :: p) :: ps

/-- Boolean test that the first list is a prefix of the second. -/
def startsWith : List Char → List Char → Bool
  | [], _ => true
  | _ :: _, [] => false
  | a :: as, b :: bs => a = b && startsWith as bs

/-- Boolean test that sep occurs as a contiguous subsequence, modelling
the Python operator "sep in line". -/
def containsSeq (sep : List Char) : List Char → Bool
  | [] => startsWith sep []
  | c :: cs => startsWith sep (c :: cs) || containsSeq sep cs

/-- Fuel-driven worker for Python str.split on a multi-character separator
(written s0 :: st, hence never empty).  Fuel at least the length of the
input makes the zero-fuel branch unreachable. -/
def splitOnSeqF (s0 : Char) (st : List Char) : Nat → List Char → List (List Char)
  | _, [] => [[]]
  | 0, cs => [cs]
  | fuel + 1, c :: cs =>
    if startsWith (s0 :: st) (c :: cs) then
      [] :: splitOnSeqF s0 st fuel (cs.drop st.length)
    else
      match splitOnSeqF s0 st fuel cs with
      | [] => [[c]]
      | p :: ps => (c :: p) :: ps

/-- Model of Python str.split(sep) for a separator s0 :: st. -/
def splitOnSeq (s0 : Char) (st : List Char) (cs : List Char) : List (List Char) :=
  splitOnSeqF s0 st cs.length cs

/-- Consume an expected literal character sequence, returning the rest. -/
def dropSeq : List Char → List Char → Option (List Char)
  | [], cs => some cs
  | _ :: _, [] => none
  | a :: as, c :: cs => if a = c then dropSeq as cs else none

/-- Consume one-or-more decimal digits (regex backslash-d-plus with the
following pattern element never a digit, so maximal munch is exact). -/
def dropDigits1 : List Char → Option (List Char)
  | [] => none
  | c :: cs => if c.isDigit then some (cs.dropWhile Char.isDigit) else none

/-- Characters strictly before the first occurrence of a, requiring that a
occurs (models the lazy regex group dot-plus-lazy up to a closing paren). -/
def takeBefore (a : Char) : List Char → Option (List Char)
  | [] => none
  | c :: cs => if c = a then some [] else (takeBefore a cs).map (c :: ·)

/-- Numeric value of a nonempty all-digit string; none otherwise.  This is
Python int() restricted to the digit strings this program feeds it. -/
def digitsToNat (cs : List Char) : Option Nat :=
  if cs ≠ [] ∧ cs.all Char.isDigit then
    some (cs.foldl (fun n c => n * 10 + (c.toNat - 48)) 0)
  else none

/-- Exact value of a nonnegative decimal literal: the represented number is
num divided by ten to the shift.  This stands in for the float produced by
Python float() on the refresh-rate strings (whose few decimal places are
exactly representable, so order comparisons agree). -/
structure DecVal where
  num : Nat
  shift : Nat
deriving DecidableEq, Repr

/-- Order on decimal values by cross multiplication. -/
def decValLt (a b : DecVal) : Bool :=
  a.num * 10 ^ b.shift < b.num * 10 ^ a.shift

/-- Model of Python float() on the decimal strings this program feeds it
(digits with at most one dot); the value is kept exactly. -/
def pyFloat (cs : List Char) : Option DecVal :=
  match splitOnChar '.' cs with
  | [a] => (digitsToNat a).map (fun n => ⟨n, 0⟩)
  | [a, b] =>
    match a, b with
    | [], [] => none
    | [], _ => (digitsToNat b).map (fun f => ⟨f, b.length⟩)
    | _, [] => (digitsToNat a).map (fun n => ⟨n, 0⟩)
    | _, _ =>
      match digitsToNat a, digitsToNat b with
      | some n, some f => some ⟨n * 10 ^ b.length + f, b.length⟩
      | _, _ => none
  | _ => none

/-- Lexicographic order on character lists, modelling Python string
comparison by code point. -/
def charsLt : List Char → List Char → Bool
  | [], [] => false
  | [], _ :: _ => true
  | _ :: _, [] => false
  | a :: as, b :: bs => if a < b then true else if b < a then false else charsLt as bs

/-- ASCII lowercasing of every character, modelling Python str.lower() on
the ASCII answers this program reads. -/
def pyLower (cs : List Char) : List Char :=
  cs.map Char.toLower

/-! Data model (monitor-switch.py lines 14-44): a MonitorMode is a
(resolution, refresh rate) pair of strings, a Monitor carries an id, a
name, vendor and product codes, the mode list in source order, and an
optional current mode. -/

/-- Dataclass MonitorMode of monitor-switch.py. -/
structure MonitorMode where
  resolution : List Char
  refresh_rate : List Char
deriving DecidableEq, Repr

/-- Dataclass Monitor of monitor-switch.py. -/
structure Monitor where
  id : List Char
  name : List Char
  vendor : List Char
  product : List Char
  modes : List MonitorMode
  current_mode : Option MonitorMode
deriving DecidableEq, Repr

/-! Mode ranker (monitor-switch.py lines 46-98). -/

/-- One step of building the Python dict of get_modes_by_resolution: append
the mode to its resolution group, or open a new group at the end (dict
insertion order). -/
def insertMode (acc : List (List Char × List MonitorMode)) (m : MonitorMode) :
    List (List Char × List MonitorMode) :=
  match acc with
  | [] => [(m.resolution, [m])]
  | (k, g) :: rest =>
    if k = m.resolution then (k, g ++ [m]) :: rest
    else (k, g) :: insertMode rest m

/-- Grouping loop of get_modes_by_resolution: groups in first-occurrence
order, each group in source order. -/
def groupByResolution (modes : List MonitorMode) : List (List Char × List MonitorMode) :=
  modes.foldl insertMode []

/-- Insert into a descending-sorted list, after entries that are not
smaller; used to model Python stable sort with reverse equal true. -/
def insDesc (lt : α → α → Bool) (x : α) : List α → List α
  | [] => [x]
  | y :: ys => if lt x y then y :: insDesc lt x ys else x :: y :: ys

/-- Stable descending sort (insertion sort), modelling list.sort with a key
and reverse equal true. -/
def insSortDesc (lt : α → α → Bool) (xs : List α) : List α :=
  xs.foldr (insDesc lt) []

/-- Sort key of get_modes_by_resolution line 56: float(m.refresh_rate);
the default value is never consulted because the caller fails first when a
rate does not parse. -/
def rateVal (m : MonitorMode) : DecVal :=
  (pyFloat m.refresh_rate).getD ⟨0, 0⟩

/-- Comparison of modes by refresh-rate value. -/
def rateLt (a b : MonitorMode) : Bool :=
  decValLt (rateVal a) (rateVal b)

/-- Monitor.get_modes_by_resolution (lines 46-58): group by resolution,
then sort each group by refresh rate, highest first.  The sort computes
float of every mode's rate up front, so a single unparsable rate raises:
that exception is the none case. -/
def get_modes_by_resolution (modes : List MonitorMode) :
    Option (List (List Char × List MonitorMode)) :=
  if modes.all (fun m => (pyFloat m.refresh_rate).isSome) then
    some ((groupByResolution modes).map (fun p => (p.1, insSortDesc rateLt p.2)))
  else none

/-- Resolution parsing of get_top_modes line 70: width, height from
map(int, resolution.split('x')); unpacking needs exactly two parts and
int() must accept both, otherwise a ValueError is raised (none). -/
def parseResolution (res : List Char) : Option (Nat × Nat) :=
  match splitOnChar 'x' res with
  | [a, b] =>
    match digitsToNat a, digitsToNat b with
    | some w, some h => some (w, h)
    | _, _ => none
  | _ => none

/-- Minimum HD pixel count of get_top_modes line 62. -/
def MIN_PIXELS : Nat := 1280 * 720

/-- Loop of get_top_modes lines 68-77: parse each grouped resolution (a
failure anywhere raises), skip those under MIN_PIXELS, and record
(pixel count, resolution, modes) triples in group order. -/
def scoreResolutions :
    List (List Char × List MonitorMode) →
      Option (List (Nat × List Char × List MonitorMode))
  | [] => some []
  | (res, g) :: rest =>
    match parseResolution res with
    | none => none
    | some wh =>
      match scoreResolutions rest with
      | none => none
      | some scs =>
        some (if wh.1 * wh.2 < MIN_PIXELS then scs else (wh.1 * wh.2, res, g) :: scs)

/-- Order used by resolution_scores.sort(reverse=True) at line 80: Python
compares the (pixel count, resolution, modes) tuples lexicographically and
distinct resolutions never tie beyond the second component. -/
def scoreLt (a b : Nat × List Char × List MonitorMode) : Bool :=
  a.1 < b.1 || (a.1 = b.1 && charsLt a.2.1 b.2.1)

/-- Selection loop of get_top_modes lines 83-96: take three modes for a
native-pixel-count resolution and two otherwise, stopping once the limit
is reached. -/
def topLoop (maxP limit : Nat) :
    List (Nat × List Char × List MonitorMode) → List MonitorMode → List MonitorMode
  | [], acc => acc
  | (p, _, g) :: rest, acc =>
    let acc2 := acc ++ g.take (if p = maxP then 3 else 2)
    if limit ≤ acc2.length then acc2 else topLoop maxP limit rest acc2

/-- Native pixel count of line 87: resolution_scores[0][0] of the sorted
score list; the zero default of the empty case is never consulted because
the selection loop then has nothing to select. -/
def nativePixel (sorted : List (Nat × List Char × List MonitorMode)) : Nat :=
  match sorted with
  | [] => 0
  | s :: _ => s.1

/-- Monitor.get_top_modes (lines 60-98).  The none case is the ValueError
raised when a refresh rate or a resolution string does not parse. -/
def get_top_modes (modes : List MonitorMode) (limit : Nat) : Option (List MonitorMode) :=
  match get_modes_by_resolution modes with
  | none => none
  | some grouped =>
    match scoreResolutions grouped with
    | none => none
    | some scores =>
      let sorted := insSortDesc scoreLt scores
      some ((topLoop (nativePixel sorted) limit sorted []).take limit)

/-- Modelled from the claim's words (spec section 4.2): group by
resolution, drop resolutions under 1280x720 pixels, order retained
resolutions by pixel count descending (ties, which the claim leaves open,
ordered as the code does, by resolution string descending), order modes
inside a group by refresh rate descending, take three modes for a
resolution of highest pixel count and two for any other, concatenate in
that resolution order and truncate to the limit. -/
def rankerSpec (modes : List MonitorMode) (limit : Nat) : List MonitorMode :=
  let groups := (groupByResolution modes).map (fun p => (p.1, insSortDesc rateLt p.2))
  let scored := groups.filterMap
    (fun p => (parseResolution p.1).map (fun wh => (wh.1 * wh.2, p.1, p.2)))
  let retained := scored.filter (fun s => decide (MIN_PIXELS ≤ s.1))
  let maxP := (retained.map (fun s => s.1)).foldr max 0
  ((insSortDesc scoreLt retained).flatMap
    (fun s => s.2.2.take (if s.1 = maxP then 3 else 2))).take limit

/-- Well-formed mode lists per the data model of the spec (section 3): the
resolution is a width x height pair of integers and the refresh rate is a
decimal numeral. -/
def ModesWF (modes : List MonitorMode) : Prop :=
  ∀ m ∈ modes, (parseResolution m.resolution).isSome ∧ (pyFloat m.refresh_rate).isSome

instance : DecidablePred ModesWF := fun modes =>
  List.decidableBAll _ modes

/-! Lemmas about the stable descending insertion sort. -/

theorem insDesc_perm (lt : α → α → Bool) (x : α) (l : List α) :
    (insDesc lt x l).Perm (x :: l) := by
  induction l with
  | nil => simp [insDesc]
  | cons y ys ih =>
    simp only [insDesc]
    by_cases h : lt x y
    · simp only [h, if_true]
      exact (ih.cons y).trans (List.Perm.swap x y ys)
    · simp [h]

theorem insSortDesc_perm (lt : α → α → Bool) (l : List α) :
    (insSortDesc lt l).Perm l := by
  induction l with
  | nil => simp [insSortDesc]
  | cons x xs ih =>
    simp only [insSortDesc, List.foldr_cons]
    exact (insDesc_perm lt x _).trans (ih.cons x)

theorem insSortDesc_eq_nil_iff (lt : α → α → Bool) (l : List α) :
    insSortDesc lt l = [] ↔ l = [] := by
  constructor
  · intro h
    have := insSortDesc_perm lt l
    rw [h] at this
    exact this.symm.eq_nil
  · intro h; subst h; rfl

/-- The head of the score sort bounds every pixel count in the input. -/
theorem insSortDesc_scoreLt_head_max (xs : List (Nat × List Char × List MonitorMode))
    (s : Nat × List Char × List MonitorMode) (t : List (Nat × List Char × List MonitorMode))
    (heq : insSortDesc scoreLt xs = s :: t) :
    ∀ y ∈ xs, y.1 ≤ s.1 := by
  induction xs generalizing s t with
  | nil => simp [insSortDesc] at heq
  | cons x xs ih =>
    simp only [insSortDesc, List.foldr_cons] at heq
    rw [show List.foldr (insDesc scoreLt) [] xs = insSortDesc scoreLt xs from rfl] at heq
    rcases hsort : insSortDesc scoreLt xs with _ | ⟨h0, t0⟩
    · rw [hsort] at heq
      simp only [insDesc] at heq
      have hx : x = s := by injection heq
      intro y hy
      rcases List.mem_cons.1 hy with h | h
      · subst h; rw [← hx]
      · rw [(insSortDesc_eq_nil_iff scoreLt xs).1 hsort] at h
        simp at h
    · rw [hsort] at heq
      have hbound := ih h0 t0 hsort
      simp only [insDesc] at heq
      by_cases hc : scoreLt x h0
      · rw [if_pos hc] at heq
        have hs : h0 = s := by injection heq
        intro y hy
        rw [← hs]
        rcases List.mem_cons.1 hy with h | h
        · rw [h]
          have hle : x.1 < h0.1 ∨ x.1 = h0.1 := by
            simp only [scoreLt, Bool.or_eq_true, decide_eq_true_eq,
              Bool.and_eq_true] at hc
            rcases hc with h | ⟨h, _⟩
            · exact Or.inl h
            · exact Or.inr h
          rcases hle with h | h
          · exact Nat.le_of_lt h
          · exact Nat.le_of_eq h
        · exact hbound y h
      · rw [if_neg hc] at heq
        have hs : x = s := by injection heq
        intro y hy
        rw [← hs]
        rcases List.mem_cons.1 hy with h | h
        · rw [h]
        · have hxh : h0.1 ≤ x.1 := by
            simp only [scoreLt, Bool.or_eq_true, decide_eq_true_eq,
              Bool.and_eq_true, not_or, not_and] at hc
            exact Nat.le_of_not_lt hc.1
          exact le_trans (hbound y h) hxh

theorem foldr_max_le (l : List Nat) (b : Nat) (h : ∀ y ∈ l, y ≤ b) :
    l.foldr max 0 ≤ b := by
  induction l with
  | nil => simp
  | cons a m ih =>
    simp only [List.foldr_cons]
    exact max_le (h a (by simp)) (ih fun y hy => h y (by simp [hy]))

theorem le_foldr_max (l : List Nat) (y : Nat) (hy : y ∈ l) :
    y ≤ l.foldr max 0 := by
  induction l with
  | nil => simp at hy
  | cons a m ih =>
    simp only [List.foldr_cons]
    rcases List.mem_cons.1 hy with h | h
    · subst h; exact le_max_left _ _
    · exact le_trans (ih h) (le_max_right _ _)

theorem foldr_max_eq (l : List Nat) (x : Nat) (hx : x ∈ l)
    (hb : ∀ y ∈ l, y ≤ x) : l.foldr max 0 = x :=
  le_antisymm (foldr_max_le l x hb) (le_foldr_max l x hx)

/-! Lemmas about the grouping of modes by resolution. -/

/-- All modes collected in a group list, in group order. -/
def flatGroups (l : List (List Char × List MonitorMode)) : List MonitorMode :=
  l.flatMap (fun p => p.2)

theorem insertMode_flat_perm (acc : List (List Char × List MonitorMode)) (m : MonitorMode) :
    (flatGroups (insertMode acc m)).Perm (flatGroups acc ++ [m]) := by
  induction acc with
  | nil => simp [insertMode, flatGroups]
  | cons p rest ih =>
    obtain ⟨k, g⟩ := p
    simp only [insertMode]
    by_cases h : k = m.resolution
    · rw [if_pos h]
      simp only [flatGroups, List.flatMap_cons, List.append_assoc]
      refine List.Perm.append_left g ?_
      simpa using @List.perm_append_comm _ [m] (rest.flatMap fun p => p.2)
    · rw [if_neg h]
      simp only [flatGroups, List.flatMap_cons] at *
      rw [List.append_assoc]
      exact List.Perm.append_left g ih

theorem groupByResolution_flat_perm (modes : List MonitorMode) :
    (flatGroups (groupByResolution modes)).Perm modes := by
  suffices h : ∀ (acc : List (List Char × List MonitorMode)),
      (flatGroups (modes.foldl insertMode acc)).Perm (flatGroups acc ++ modes) by
    have := h []
    simpa [flatGroups, groupByResolution] using this
  induction modes with
  | nil => intro acc; simp
  | cons m ms ih =>
    intro acc
    simp only [List.foldl_cons]
    refine (ih (insertMode acc m)).trans ?_
    have h1 := insertMode_flat_perm acc m
    refine (h1.append (List.Perm.refl ms)).trans ?_
    rw [List.append_assoc]
    simp

/-- Invariant of the grouping dict: groups are nonempty and hold exactly
the modes carrying their key resolution. -/
def GroupsWF (l : List (List Char × List MonitorMode)) : Prop :=
  ∀ p ∈ l, p.2 ≠ [] ∧ ∀ x ∈ p.2, x.resolution = p.1

theorem insertMode_wf (acc : List (List Char × List MonitorMode)) (m : MonitorMode)
    (h : GroupsWF acc) : GroupsWF (insertMode acc m) := by
  induction acc with
  | nil =>
    intro p hp
    simp only [insertMode, List.mem_singleton] at hp
    subst hp
    exact ⟨by simp, by simp⟩
  | cons q rest ih =>
    obtain ⟨k, g⟩ := q
    simp only [insertMode]
    by_cases hk : k = m.resolution
    · rw [if_pos hk]
      intro p hp
      rcases List.mem_cons.1 hp with hp | hp
      · subst hp
        refine ⟨by simp, ?_⟩
        intro x hx
        rcases List.mem_append.1 hx with hx | hx
        · exact (h (k, g) (by simp)).2 x hx
        · simp only [List.mem_singleton] at hx
          subst hx
          exact hk.symm
      · exact h p (List.mem_cons_of_mem _ hp)
    · rw [if_neg hk]
      intro p hp
      rcases List.mem_cons.1 hp with hp | hp
      · subst hp
        exact h (k, g) (by simp)
      · exact ih (fun q hq => h q (List.mem_cons_of_mem _ hq)) p hp

theorem groupByResolution_wf (modes : List MonitorMode) :
    GroupsWF (groupByResolution modes) := by
  suffices h : ∀ (acc : List (List Char × List MonitorMode)), GroupsWF acc →
      GroupsWF (modes.foldl insertMode acc) from h [] (by intro p hp; simp at hp)
  induction modes with
  | nil => intro acc hacc; exact hacc
  | cons m ms ih =>
    intro acc hacc
    exact ih (insertMode acc m) (insertMode_wf acc m hacc)

/-! Lemmas about the resolution scoring loop. -/

theorem scoreResolutions_eq (l : List (List Char × List MonitorMode))
    (h : ∀ p ∈ l, (parseResolution p.1).isSome) :
    scoreResolutions l =
      some ((l.filterMap
        (fun p => (parseResolution p.1).map (fun wh => (wh.1 * wh.2, p.1, p.2)))).filter
          (fun s => decide (MIN_PIXELS ≤ s.1))) := by
  induction l with
  | nil => rfl
  | cons q rest ih =>
    obtain ⟨res, g⟩ := q
    obtain ⟨wh, hwh⟩ := Option.isSome_iff_exists.1 (h (res, g) (by simp))
    simp only [scoreResolutions, hwh]
    rw [ih (fun p hp => h p (List.mem_cons_of_mem _ hp))]
    have hfm : ((res, g) :: rest).filterMap
        (fun p => (parseResolution p.1).map (fun wh => (wh.1 * wh.2, p.1, p.2))) =
        (wh.1 * wh.2, res, g) :: rest.filterMap
          (fun p => (parseResolution p.1).map (fun wh => (wh.1 * wh.2, p.1, p.2))) := by
      simp [List.filterMap_cons, hwh]
    by_cases hlt : wh.1 * wh.2 < MIN_PIXELS
    · simp [hfm, List.filter_cons, hlt, Nat.not_le.2 hlt]
    · simp [hfm, List.filter_cons, hlt, Nat.le_of_not_lt hlt]

theorem scoreResolutions_entries (l : List (List Char × List MonitorMode))
    (scs : List (Nat × List Char × List MonitorMode))
    (h : scoreResolutions l = some scs) :
    ∀ s ∈ scs, s.2 ∈ l ∧ MIN_PIXELS ≤ s.1 ∧
      ∃ w ht, parseResolution s.2.1 = some (w, ht) ∧ w * ht = s.1 := by
  induction l generalizing scs with
  | nil =>
    simp only [scoreResolutions, Option.some.injEq] at h
    subst h
    simp
  | cons q rest ih =>
    obtain ⟨res, g⟩ := q
    simp only [scoreResolutions] at h
    rcases hp : parseResolution res with _ | wh
    · rw [hp] at h; exact absurd h (by simp)
    · rw [hp] at h
      rcases hr : scoreResolutions rest with _ | scs0
      · rw [hr] at h; exact absurd h (by simp)
      · rw [hr] at h
        simp only [Option.some.injEq] at h
        subst h
        by_cases hlt : wh.1 * wh.2 < MIN_PIXELS
        · rw [if_pos hlt]
          intro s hs
          obtain ⟨h1, h2, h3⟩ := ih scs0 hr s hs
          exact ⟨List.mem_cons_of_mem _ h1, h2, h3⟩
        · rw [if_neg hlt]
          intro s hs
          rcases List.mem_cons.1 hs with hs | hs
          · subst hs
            exact ⟨by simp, Nat.le_of_not_lt hlt, wh.1, wh.2, hp, rfl⟩
          · obtain ⟨h1, h2, h3⟩ := ih scs0 hr s hs
            exact ⟨List.mem_cons_of_mem _ h1, h2, h3⟩

/-- Kept score entries list their groups as a sublist of the input group
list (in order, some groups dropped). -/
theorem scoreResolutions_groups_sublist (l : List (List Char × List MonitorMode))
    (scs : List (Nat × List Char × List MonitorMode))
    (h : scoreResolutions l = some scs) :
    (scs.map (fun s => s.2.2)).Sublist (l.map (fun p => p.2)) := by
  induction l generalizing scs with
  | nil =>
    simp only [scoreResolutions, Option.some.injEq] at h
    subst h
    simp
  | cons q rest ih =>
    obtain ⟨res, g⟩ := q
    simp only [scoreResolutions] at h
    rcases hp : parseResolution res with _ | wh
    · rw [hp] at h; exact absurd h (by simp)
    · rw [hp] at h
      rcases hr : scoreResolutions rest with _ | scs0
      · rw [hr] at h; exact absurd h (by simp)
      · rw [hr] at h
        simp only [Option.some.injEq] at h
        subst h
        by_cases hlt : wh.1 * wh.2 < MIN_PIXELS
        · rw [if_pos hlt]
          exact (ih scs0 hr).trans (List.sublist_cons_self _ _)
        · rw [if_neg hlt]
          simp only [List.map_cons]
          exact (ih scs0 hr).cons₂ g

/-! The selection loop truncated at the limit equals the straight
concatenation truncated at the limit: once the loop stops early the
accumulated list already covers the first limit entries. -/

theorem topLoop_take (maxP limit : Nat)
    (scores : List (Nat × List Char × List MonitorMode)) (acc : List MonitorMode) :
    (topLoop maxP limit scores acc).take limit =
      ((acc ++ scores.flatMap
        (fun s => s.2.2.take (if s.1 = maxP then 3 else 2))).take limit) := by
  induction scores generalizing acc with
  | nil => simp [topLoop]
  | cons s rest ih =>
    obtain ⟨p, r, g⟩ := s
    simp only [topLoop, List.flatMap_cons]
    by_cases hb : limit ≤ (acc ++ g.take (if p = maxP then 3 else 2)).length
    · rw [if_pos hb, ← List.append_assoc, List.take_append_of_le_length hb]
    · rw [if_neg hb, ih, List.append_assoc]

/-! Bridging the two descriptions of the native pixel count. -/

theorem foldr_max_eq_nativePixel (retained : List (Nat × List Char × List MonitorMode)) :
    (retained.map (fun s => s.1)).foldr max 0 =
      nativePixel (insSortDesc scoreLt retained) := by
  rcases hsorted : insSortDesc scoreLt retained with _ | ⟨s, t⟩
  · have hnil : retained = [] := (insSortDesc_eq_nil_iff _ _).1 hsorted
    subst hnil
    rfl
  · have hmem : s ∈ retained := by
      refine (insSortDesc_perm scoreLt retained).mem_iff.1 ?_
      rw [hsorted]
      exact List.mem_cons_self s t
    have hbound := insSortDesc_scoreLt_head_max retained s t hsorted
    simp only [nativePixel]
    refine foldr_max_eq _ s.1 (List.mem_map_of_mem _ hmem) ?_
    intro y hy
    obtain ⟨z, hz, hzy⟩ := List.mem_map.1 hy
    rw [← hzy]
    exact hbound z hz

theorem groupKeys_parse (modes : List MonitorMode) (hwf : ModesWF modes) :
    ∀ p ∈ (groupByResolution modes).map (fun q => (q.1, insSortDesc rateLt q.2)),
      (parseResolution p.1).isSome := by
  intro p hp
  obtain ⟨q, hq, hpq⟩ := List.mem_map.1 hp
  obtain ⟨hne, hkey⟩ := groupByResolution_wf modes q hq
  rcases hg : q.2 with _ | ⟨m0, g0⟩
  · exact absurd hg hne
  · have hm0 : m0 ∈ flatGroups (groupByResolution modes) :=
      List.mem_flatMap.2 ⟨q, hq, by rw [hg]; simp⟩
    have hm0m : m0 ∈ modes := (groupByResolution_flat_perm modes).mem_iff.1 hm0
    have hps := (hwf m0 hm0m).1
    rw [hkey m0 (by rw [hg]; simp)] at hps
    rw [← hpq]
    exact hps

/-- Under the data-model well-formedness the selection of get_top_modes is
exactly the claim-side pipeline. -/
theorem get_top_modes_eq_rankerSpec (modes : List MonitorMode) (limit : Nat)
    (hwf : ModesWF modes) :
    get_top_modes modes limit = some (rankerSpec modes limit) := by
  have hr : ∀ m ∈ modes, (pyFloat m.refresh_rate).isSome := fun m hm => (hwf m hm).2
  have hg : get_modes_by_resolution modes =
      some ((groupByResolution modes).map (fun p => (p.1, insSortDesc rateLt p.2))) := by
    unfold get_modes_by_resolution
    rw [if_pos (by rw [List.all_eq_true]; intro m hm; exact hr m hm)]
  have hsc := scoreResolutions_eq _ (groupKeys_parse modes hwf)
  unfold get_top_modes
  simp only [hg]
  simp only [hsc]
  simp only [Option.some.injEq]
  rw [topLoop_take, List.nil_append]
  simp only [rankerSpec]
  rw [foldr_max_eq_nativePixel]

/-! Inversion of a successful get_top_modes run. -/

theorem get_modes_by_resolution_some_inv (modes : List MonitorMode)
    (grouped : List (List Char × List MonitorMode))
    (h : get_modes_by_resolution modes = some grouped) :
    grouped = (groupByResolution modes).map (fun p => (p.1, insSortDesc rateLt p.2)) := by
  unfold get_modes_by_resolution at h
  by_cases hc : modes.all (fun m => (pyFloat m.refresh_rate).isSome)
  · rw [if_pos hc] at h
    simp only [Option.some.injEq] at h
    exact h.symm
  · rw [if_neg hc] at h
    cases h

theorem get_top_modes_some_inv (modes : List MonitorMode) (limit : Nat)
    (res : List MonitorMode) (h : get_top_modes modes limit = some res) :
    ∃ grouped scores,
      get_modes_by_resolution modes = some grouped ∧
      scoreResolutions grouped = some scores ∧
      res = ((insSortDesc scoreLt scores).flatMap
        (fun s => s.2.2.take
          (if s.1 = nativePixel (insSortDesc scoreLt scores) then 3 else 2))).take limit := by
  unfold get_top_modes at h
  rcases hg : get_modes_by_resolution modes with _ | grouped
  · rw [hg] at h; cases h
  · simp only [hg] at h
    rcases hs : scoreResolutions grouped with _ | scores
    · rw [hs] at h; cases h
    · simp only [hs, Option.some.injEq] at h
      refine ⟨grouped, scores, rfl, hs, ?_⟩
      rw [← h, topLoop_take, List.nil_append]

/-! Small flatten and flatMap helpers. -/

theorem flatten_sublist_of_sublist {l₁ l₂ : List (List α)} (h : l₁.Sublist l₂) :
    l₁.flatten.Sublist l₂.flatten := by
  induction h with
  | slnil => exact List.Sublist.refl _
  | cons a h ih =>
    simp only [List.flatten_cons]
    exact ih.trans (List.sublist_append_right a _)
  | cons₂ a h ih =>
    simp only [List.flatten_cons]
    exact ih.append_left a

theorem flatMap_sublist_of_forall (l : List α) (f g : α → List β)
    (h : ∀ x ∈ l, (f x).Sublist (g x)) : (l.flatMap f).Sublist (l.flatMap g) := by
  induction l with
  | nil => exact List.Sublist.refl _
  | cons a t ih =>
    simp only [List.flatMap_cons]
    exact (h a (by simp)).append (ih fun x hx => h x (List.mem_cons_of_mem _ hx))

theorem flatMap_perm_of_forall (l : List α) (f g : α → List β)
    (h : ∀ x ∈ l, (f x).Perm (g x)) : (l.flatMap f).Perm (l.flatMap g) := by
  induction l with
  | nil => exact List.Perm.refl _
  | cons a t ih =>
    simp only [List.flatMap_cons]
    exact (h a (by simp)).append (ih fun x hx => h x (List.mem_cons_of_mem _ hx))

theorem flatMap_perm_left {l₁ l₂ : List α} (f : α → List β) (h : l₁.Perm l₂) :
    (l₁.flatMap f).Perm (l₂.flatMap f) := by
  rw [List.flatMap_def, List.flatMap_def]
  exact (h.map f).flatten

/-- Every member of a retained score entry's group is a mode of the input
with the entry's resolution key. -/
theorem score_group_member (modes : List MonitorMode)
    (grouped : List (List Char × List MonitorMode))
    (hgr : grouped = (groupByResolution modes).map (fun p => (p.1, insSortDesc rateLt p.2)))
    (s : Nat × List Char × List MonitorMode) (hs : s.2 ∈ grouped)
    (m : MonitorMode) (hm : m ∈ s.2.2) : m.resolution = s.2.1 := by
  subst hgr
  obtain ⟨q, hq, hpq⟩ := List.mem_map.1 hs
  obtain ⟨_, hkey⟩ := groupByResolution_wf modes q hq
  have hm2 : m ∈ insSortDesc rateLt q.2 := by
    have : s.2.2 = insSortDesc rateLt q.2 := by rw [← hpq]
    rw [← this]; exact hm
  have hmq : m ∈ q.2 := (insSortDesc_perm rateLt q.2).mem_iff.1 hm2
  have := hkey m hmq
  rw [this]
  have : s.2.1 = q.1 := by rw [← hpq]
  rw [this]

/-! Example input for the witnesses: one monitor's mode list covering a
native group, a second retained group, a pixel-count tie, and a sub-HD
resolution that must be dropped. -/

def exModes : List MonitorMode := [
  ⟨"3440x1440".data, "59.973".data⟩,
  ⟨"3440x1440".data, "179.981".data⟩,
  ⟨"1920x1080".data, "60.000".data⟩,
  ⟨"640x480".data, "60.0".data⟩,
  ⟨"1920x1080".data, "144.0".data⟩,
  ⟨"3440x1440".data, "100.006".data⟩,
  ⟨"3440x1440".data, "120.0".data⟩,
  ⟨"1080x1920".data, "60.0".data⟩]

def exTop : List MonitorMode := [
  ⟨"3440x1440".data, "179.981".data⟩,
  ⟨"3440x1440".data, "120.0".data⟩,
  ⟨"3440x1440".data, "100.006".data⟩,
  ⟨"1920x1080".data, "144.0".data⟩,
  ⟨"1920x1080".data, "60.000".data⟩,
  ⟨"1080x1920".data, "60.0".data⟩]

/-- C1: for every well-formed mode list and positive limit, get_top_modes
is the deterministic pure pipeline that groups modes by resolution, drops
resolutions under 1280x720 pixels, orders retained resolutions by pixel
count descending, orders modes inside a resolution by refresh rate
descending, takes up to three modes for a highest-pixel-count resolution
and up to two for any other, concatenates the groups in that order and
truncates to the limit. -/
theorem claim_C1_ranker_pipeline (modes : List MonitorMode) (limit : Nat)
    (hwf : ModesWF modes) (hpos : 0 < limit) :
    get_top_modes modes limit = some (rankerSpec modes limit) :=
  get_top_modes_eq_rankerSpec modes limit hwf

theorem claim_C1_ranker_pipeline_witness :
    ModesWF exModes ∧ 0 < 10 ∧
      get_top_modes exModes 10 = some (rankerSpec exModes 10) :=
  ⟨by decide, by decide, claim_C1_ranker_pipeline exModes 10 (by decide) (by decide)⟩

/-- C2: whenever get_top_modes returns a list, that list never exceeds the
requested limit and every returned mode's resolution has a pixel count of
at least 1280*720. -/
theorem claim_C2_ranker_bounds (modes : List MonitorMode) (limit : Nat)
    (res : List MonitorMode) (h : get_top_modes modes limit = some res) :
    res.length ≤ limit ∧
      ∀ m ∈ res, ∃ w ht, parseResolution m.resolution = some (w, ht) ∧
        MIN_PIXELS ≤ w * ht := by
  obtain ⟨grouped, scores, hg, hs, hres⟩ := get_top_modes_some_inv modes limit res h
  constructor
  · rw [hres]; exact List.length_take_le _ _
  · intro m hm
    rw [hres] at hm
    have hm2 := (List.take_sublist _ _).subset hm
    obtain ⟨s, hsmem, hmsel⟩ := List.mem_flatMap.1 hm2
    have hsscores : s ∈ scores := (insSortDesc_perm scoreLt scores).mem_iff.1 hsmem
    obtain ⟨hsg, hmin, w, ht, hparse, hwh⟩ :=
      scoreResolutions_entries grouped scores hs s hsscores
    have hmgroup : m ∈ s.2.2 := (List.take_sublist _ _).subset hmsel
    have hkey := score_group_member modes grouped
      (get_modes_by_resolution_some_inv modes grouped hg) s hsg m hmgroup
    refine ⟨w, ht, ?_, ?_⟩
    · rw [hkey]; exact hparse
    · rw [hwh]; exact hmin

theorem claim_C2_ranker_bounds_witness :
    get_top_modes exModes 10 = some exTop ∧
      (exTop.length ≤ 10 ∧
        ∀ m ∈ exTop, ∃ w ht, parseResolution m.resolution = some (w, ht) ∧
          MIN_PIXELS ≤ w * ht) :=
  ⟨by decide, claim_C2_ranker_bounds exModes 10 exTop (by decide)⟩

/-- C10: whenever get_top_modes returns a list, that list is drawn from
the monitor's own mode list: a sub-permutation, so no mode is fabricated
or duplicated beyond its multiplicity in the input. -/
theorem claim_C10_ranker_subperm (modes : List MonitorMode) (limit : Nat)
    (res : List MonitorMode) (h : get_top_modes modes limit = some res) :
    res.Subperm modes := by
  obtain ⟨grouped, scores, hg, hs, hres⟩ := get_top_modes_some_inv modes limit res h
  have hgr := get_modes_by_resolution_some_inv modes grouped hg
  have h12 : res.Sublist ((insSortDesc scoreLt scores).flatMap (fun s => s.2.2)) := by
    rw [hres]
    refine (List.take_sublist _ _).trans ?_
    exact flatMap_sublist_of_forall _ _ _ (fun s _ => List.take_sublist _ _)
  have h3 : ((insSortDesc scoreLt scores).flatMap (fun s => s.2.2)).Perm
      (scores.flatMap (fun s => s.2.2)) :=
    flatMap_perm_left _ (insSortDesc_perm _ _)
  have h4 : (scores.flatMap (fun s => s.2.2)).Sublist
      (grouped.flatMap (fun p => p.2)) := by
    rw [List.flatMap_def, List.flatMap_def]
    exact flatten_sublist_of_sublist (scoreResolutions_groups_sublist grouped scores hs)
  have h5 : (grouped.flatMap (fun p => p.2)).Perm modes := by
    rw [hgr]
    have e1 : (((groupByResolution modes).map
        (fun p => (p.1, insSortDesc rateLt p.2))).flatMap (fun p => p.2))
        = (groupByResolution modes).flatMap (fun q => insSortDesc rateLt q.2) := by
      rw [List.flatMap_def, List.map_map]
      rfl
    rw [e1]
    refine (flatMap_perm_of_forall _ _ (fun q => q.2)
      (fun q _ => insSortDesc_perm rateLt q.2)).trans ?_
    exact groupByResolution_flat_perm modes
  exact ((h12.subperm.trans h3.subperm).trans h4.subperm).trans h5.subperm

theorem claim_C10_ranker_subperm_witness :
    get_top_modes exModes 10 = some exTop ∧ exTop.Subperm exModes :=
  ⟨by decide, claim_C10_ranker_subperm exModes 10 exTop (by decide)⟩

/-! Output parsers (monitor-switch.py lines 126-193).  Lines are lists of
characters; the two regular expressions are modelled by direct scanners.
Every quantifier in them is followed by a disjoint pattern element except
the lazy group, so maximal munch and first-closing-paren capture reproduce
the backtracking search exactly. -/

/-- One attempt of the header pattern [├└]──Monitor backslash-s-plus
(backslash-S-plus) backslash-s-plus open-paren (dot-plus lazy) close-paren
at the start of the text; returns the two capture groups. -/
def matchHeaderAt (cs : List Char) : Option (List Char × List Char) :=
  match cs with
  | [] => none
  | c :: r0 =>
    if c = '├' ∨ c = '└' then
      match dropSeq "──Monitor".data r0 with
      | none => none
      | some r1 =>
        match r1 with
        | [] => none
        | s :: r2 =>
          if isPySpace s then
            match r2.dropWhile isPySpace with
            | [] => none
            | g :: r4 =>
              let gid := g :: r4.takeWhile (fun x => ¬ isPySpace x)
              match r4.dropWhile (fun x => ¬ isPySpace x) with
              | [] => none
              | w :: r6 =>
                if isPySpace w then
                  match r6.dropWhile isPySpace with
                  | '(' :: x :: r9 =>
                    match takeBefore ')' r9 with
                    | some pre => some (gid, x :: pre)
                    | none => none
                  | _ => none
                else none
          else none
    else none

/-- re.search of the monitor-header pattern: try every start position from
the left. -/
def findHeader : List Char → Option (List Char × List Char)
  | [] => none
  | c :: cs =>
    match matchHeaderAt (c :: cs) with
    | some r => some r
    | none => findHeader cs

/-- Tail of the mode-line pattern after the tree character:
──(digits)x(digits)@(digits).(digits), rest of the line unconstrained. -/
def matchModeTail (cs : List Char) : Bool :=
  match dropSeq "──".data cs with
  | none => false
  | some r1 =>
    match dropDigits1 r1 with
    | none => false
    | some r2 =>
      match r2 with
      | 'x' :: r3 =>
        match dropDigits1 r3 with
        | none => false
        | some r4 =>
          match r4 with
          | '@' :: r5 =>
            match dropDigits1 r5 with
            | none => false
            | some r6 =>
              match r6 with
              | '.' :: r7 => (dropDigits1 r7).isSome
              | _ => false
          | _ => false
      | _ => false

/-- re.match of the anchored mode pattern of parse_monitors line 170:
leading whitespace, a tree character, then WIDTHxHEIGHT@RATE digits. -/
def isModeLine (cs : List Char) : Bool :=
  match cs with
  | [] => false
  | c :: rest =>
    isPySpace c &&
    (match rest.dropWhile isPySpace with
     | [] => false
     | d :: r1 => (d = '├' || d = '└') && matchModeTail r1)

/-- Python dict assignment current_modes[key] = value: replace in place or
append. -/
def dictInsert (k : List Char) (v : MonitorMode) :
    List (List Char × MonitorMode) → List (List Char × MonitorMode)
  | [] => [(k, v)]
  | (k2, v2) :: rest =>
    if k2 = k then (k, v) :: rest else (k2, v2) :: dictInsert k v rest

/-- One line of parse_current_modes (lines 131-142).  State: the current
monitor id and the dict built so far.  The error value is the ValueError
raised when the text after the tree marker holds more than one at-sign, so
unpacking its split into two names fails (an index error on the guarded
split is modelled the same way). -/
def pcmStep (st : Option (List Char) × List (List Char × MonitorMode)) (line : List Char) :
    Except Unit (Option (List Char) × List (List Char × MonitorMode)) :=
  match findHeader line with
  | some (mid, _) => .ok (some mid, st.2)
  | none =>
    match st.1 with
    | none => .ok st
    | some mid =>
      if containsSeq "└──".data line ∧ line.contains '@' ∧ mid ≠ [] then
        match splitOnSeq '└' "──".data line with
        | _ :: seg :: _ =>
          let mode_text := stripChars seg
          if mode_text.contains '@' then
            match splitOnChar '@' mode_text with
            | [r, f] => .ok (some mid, dictInsert mid ⟨r, f⟩ st.2)
            | _ => .error ()
          else .ok (some mid, st.2)
        | _ => .error ()
      else .ok (some mid, st.2)

/-- Fold of pcmStep over the lines, stopping at the first raise. -/
def pcmRun (st : Option (List Char) × List (List Char × MonitorMode)) :
    List (List Char) → Except Unit (Option (List Char) × List (List Char × MonitorMode))
  | [] => .ok st
  | line :: rest =>
    match pcmStep st line with
    | .error e => .error e
    | .ok st2 => pcmRun st2 rest

/-- parse_current_modes (lines 126-144): map from monitor id to the single
currently-active mode found in the summary listing. -/
def parse_current_modes (config_output : List Char) :
    Except Unit (List (List Char × MonitorMode)) :=
  match pcmRun (none, []) (splitOnChar '\n' config_output) with
  | .error e => .error e
  | .ok st => .ok st.2

/-- The monitor list at the end of the line loop: monitors are appended at
creation and mutated in place, so the one being built sits last. -/
def pmFlush (done : List Monitor) (cur : Option Monitor) : List Monitor :=
  match cur with
  | none => done
  | some m => done ++ [m]

/-- Mode-text segment selection of line 172: the part after the first
branch marker when one is present, after the first leaf marker otherwise;
none models the IndexError of indexing a one-piece split. -/
def pmSegSelect (line : List Char) : Option (List Char) :=
  if containsSeq "├──".data line then
    match splitOnSeq '├' "──".data line with
    | _ :: seg :: _ => some seg
    | _ => none
  else
    match splitOnSeq '└' "──".data line with
    | _ :: seg :: _ => some seg
    | _ => none

/-- One line of the parse_monitors loop (lines 152-175), updating the
completed monitors and the monitor being built.  The error value is the
ValueError of unpacking a multi-at-sign mode text (an index error on a
guarded split is modelled the same way). -/
def pmStep (st : List Monitor × Option Monitor) (line : List Char) :
    Except Unit (List Monitor × Option Monitor) :=
  match findHeader line with
  | some (mid, mname) => .ok (pmFlush st.1 st.2, some ⟨mid, mname, [], [], [], none⟩)
  | none =>
    match st.2 with
    | none => .ok st
    | some m =>
      if containsSeq "├──Vendor:".data line then
        match splitOnSeq 'V' "endor:".data line with
        | _ :: seg :: _ => .ok (st.1, some { m with vendor := stripChars seg })
        | _ => .error ()
      else if containsSeq "├──Product:".data line then
        match splitOnSeq 'P' "roduct:".data line with
        | _ :: seg :: _ => .ok (st.1, some { m with product := stripChars seg })
        | _ => .error ()
      else if isModeLine line then
        match pmSegSelect line with
        | none => .error ()
        | some seg =>
          let mode_text := stripChars seg
          if mode_text.contains '@' then
            match splitOnChar '@' mode_text with
            | [r, f] => .ok (st.1, some { m with modes := m.modes ++ [⟨r, f⟩] })
            | _ => .error ()
          else .ok st
      else .ok st

/-- Fold of pmStep over the lines, stopping at the first raise. -/
def pmRun (st : List Monitor × Option Monitor) :
    List (List Char) → Except Unit (List Monitor × Option Monitor)
  | [] => .ok st
  | line :: rest =>
    match pmStep st line with
    | .error e => .error e
    | .ok st2 => pmRun st2 rest

/-- Merge step of parse_monitors lines 177-191.  The current_config
parameter models get_current_config(): its stdout on success, none for
the RuntimeError it raises; that exception and any ValueError from
parse_current_modes are caught by the surrounding try, leaving the
monitors unmerged.  A dict hit attaches the first mode of the monitor's
own list equal in both fields to the parsed current mode. -/
def mergeCurrent (monitors : List Monitor) (current_config : Option (List Char)) :
    List Monitor :=
  match current_config with
  | none => monitors
  | some t =>
    match parse_current_modes t with
    | .error _ => monitors
    | .ok dict =>
      monitors.map (fun mon =>
        match dict.lookup mon.id with
        | none => mon
        | some cm =>
          match mon.modes.find?
              (fun m => m.resolution == cm.resolution && m.refresh_rate == cm.refresh_rate) with
          | some m => { mon with current_mode := some m }
          | none => mon)

/-- parse_monitors (lines 147-193): parse the verbose listing into
Monitor records, then attach current modes from the summary listing. -/
def parse_monitors (gdctl_output : List Char) (current_config : Option (List Char)) :
    Except Unit (List Monitor) :=
  match pmRun ([], none) (splitOnChar '\n' gdctl_output) with
  | .error e => .error e
  | .ok st => .ok (mergeCurrent (pmFlush st.1 st.2) current_config)

/-! Character-level lemmas used by the parser safety proofs. -/

theorem splitOnChar_ne_nil (a : Char) (cs : List Char) : splitOnChar a cs ≠ [] := by
  induction cs with
  | nil => simp [splitOnChar]
  | cons c cs ih =>
    simp only [splitOnChar]
    by_cases h : c = a
    · simp [h]
    · rw [if_neg h]
      rcases hs : splitOnChar a cs with _ | ⟨p, ps⟩
      · simp
      · simp

theorem splitOnChar_length (a : Char) (cs : List Char) :
    (splitOnChar a cs).length = cs.count a + 1 := by
  induction cs with
  | nil => simp [splitOnChar]
  | cons c cs ih =>
    simp only [splitOnChar]
    by_cases h : c = a
    · rw [if_pos h]
      simp [List.count_cons, h, ih]
    · rw [if_neg h]
      rcases hs : splitOnChar a cs with _ | ⟨p, ps⟩
      · exact absurd hs (splitOnChar_ne_nil a cs)
      · rw [hs] at ih
        simp only [List.length_cons] at ih ⊢
        simp [List.count_cons, h, ih]

theorem splitOnChar_sublist (a : Char) (cs : List Char) :
    ∀ p ∈ splitOnChar a cs, p.Sublist cs := by
  induction cs with
  | nil =>
    intro p hp
    simp [splitOnChar] at hp
    simp [hp]
  | cons c cs ih =>
    intro p hp
    simp only [splitOnChar] at hp
    by_cases h : c = a
    · rw [if_pos h] at hp
      rcases List.mem_cons.1 hp with hp | hp
      · subst hp; exact List.nil_sublist _
      · exact (ih p hp).trans (List.sublist_cons_self c cs)
    · rw [if_neg h] at hp
      rcases hs : splitOnChar a cs with _ | ⟨q, qs⟩
      · exact absurd hs (splitOnChar_ne_nil a cs)
      · rw [hs] at hp
        rcases List.mem_cons.1 hp with hp | hp
        · subst hp
          have hq : q.Sublist cs := ih q (by rw [hs]; simp)
          exact hq.cons₂ c
        · exact ((ih p (by rw [hs]; exact List.mem_cons_of_mem q hp)).trans
            (List.sublist_cons_self c cs))

theorem splitOnSeqF_ne_nil (s0 : Char) (st : List Char) (fuel : Nat) (cs : List Char) :
    splitOnSeqF s0 st fuel cs ≠ [] := by
  match fuel, cs with
  | _, [] => simp [splitOnSeqF]
  | 0, c :: cs => simp [splitOnSeqF]
  | fuel + 1, c :: cs =>
    simp only [splitOnSeqF]
    by_cases h : startsWith (s0 :: st) (c :: cs)
    · simp [h]
    · rw [if_neg h]
      rcases hs : splitOnSeqF s0 st fuel cs with _ | ⟨p, ps⟩
      · simp
      · simp

theorem splitOnSeqF_sublist (s0 : Char) (st : List Char) (fuel : Nat) :
    ∀ (cs : List Char), ∀ p ∈ splitOnSeqF s0 st fuel cs, p.Sublist cs := by
  induction fuel with
  | zero =>
    intro cs p hp
    match cs with
    | [] =>
      simp [splitOnSeqF] at hp
      simp [hp]
    | c :: cs =>
      simp [splitOnSeqF] at hp
      simp [hp]
  | succ fuel ih =>
    intro cs p hp
    match cs with
    | [] =>
      simp [splitOnSeqF] at hp
      simp [hp]
    | c :: cs =>
      simp only [splitOnSeqF] at hp
      by_cases h : startsWith (s0 :: st) (c :: cs)
      · rw [if_pos h] at hp
        rcases List.mem_cons.1 hp with hp | hp
        · subst hp; exact List.nil_sublist _
        · exact ((ih _ p hp).trans (List.drop_sublist _ _)).trans
            (List.sublist_cons_self c cs)
      · rw [if_neg h] at hp
        rcases hs : splitOnSeqF s0 st fuel cs with _ | ⟨q, qs⟩
        · exact absurd hs (splitOnSeqF_ne_nil s0 st fuel cs)
        · rw [hs] at hp
          rcases List.mem_cons.1 hp with hp | hp
          · subst hp
            exact (ih cs q (by rw [hs]; simp)).cons₂ c
          · exact ((ih cs p (by rw [hs]; exact List.mem_cons_of_mem q hp)).trans
              (List.sublist_cons_self c cs))

theorem splitOnSeq_sublist (s0 : Char) (st : List Char) (cs : List Char) :
    ∀ p ∈ splitOnSeq s0 st cs, p.Sublist cs :=
  splitOnSeqF_sublist s0 st cs.length cs

theorem splitOnSeqF_two_of_contains (s0 : Char) (st : List Char) (fuel : Nat) :
    ∀ (cs : List Char), cs.length ≤ fuel → containsSeq (s0 :: st) cs = true →
      2 ≤ (splitOnSeqF s0 st fuel cs).length := by
  induction fuel with
  | zero =>
    intro cs hf hc
    have : cs = [] := List.length_eq_zero.1 (Nat.le_zero.1 hf)
    subst this
    simp [containsSeq, startsWith] at hc
  | succ fuel ih =>
    intro cs hf hc
    match cs with
    | [] => simp [containsSeq, startsWith] at hc
    | c :: cs =>
      simp only [splitOnSeqF]
      simp only [containsSeq, Bool.or_eq_true] at hc
      by_cases h : startsWith (s0 :: st) (c :: cs)
      · rw [if_pos h]
        have := splitOnSeqF_ne_nil s0 st fuel (cs.drop st.length)
        rcases hs : splitOnSeqF s0 st fuel (cs.drop st.length) with _ | ⟨p, ps⟩
        · exact absurd hs this
        · simp
      · rw [if_neg h]
        have hc2 : containsSeq (s0 :: st) cs = true := by
          rcases hc with hc | hc
          · exact absurd hc h
          · exact hc
        have hlen : cs.length ≤ fuel := Nat.le_of_succ_le_succ (by simpa using hf)
        have h2 := ih cs hlen hc2
        rcases hs : splitOnSeqF s0 st fuel cs with _ | ⟨p, ps⟩
        · exact absurd hs (splitOnSeqF_ne_nil s0 st fuel cs)
        · rw [hs] at h2
          simpa using h2

theorem splitOnSeq_two_of_contains (s0 : Char) (st : List Char) (cs : List Char)
    (hc : containsSeq (s0 :: st) cs = true) :
    ∃ a b t, splitOnSeq s0 st cs = a :: b :: t := by
  have h2 := splitOnSeqF_two_of_contains s0 st cs.length cs (le_refl _) hc
  rcases hs : splitOnSeq s0 st cs with _ | ⟨a, t⟩
  · rw [splitOnSeq] at hs
    exact absurd hs (splitOnSeqF_ne_nil s0 st cs.length cs)
  · rcases t with _ | ⟨b, t2⟩
    · rw [splitOnSeq] at hs
      rw [hs] at h2
      simp at h2
    · exact ⟨a, b, t2, rfl⟩

theorem stripChars_sublist (cs : List Char) : (stripChars cs).Sublist cs := by
  unfold stripChars
  have h1 : (cs.dropWhile isPySpace).Sublist cs := List.dropWhile_sublist _
  have h2 : ((cs.dropWhile isPySpace).reverse.dropWhile isPySpace).Sublist
      (cs.dropWhile isPySpace).reverse := List.dropWhile_sublist _
  have h3 := h2.reverse
  simp only [List.reverse_reverse] at h3
  exact h3.trans h1

theorem startsWith_drop (a b t : List Char) (h : startsWith (a ++ b) t = true) :
    startsWith b (t.drop a.length) = true := by
  induction a generalizing t with
  | nil => simpa using h
  | cons x xs ih =>
    match t with
    | [] => simp [startsWith] at h
    | c :: cs =>
      simp only [List.cons_append, startsWith, Bool.and_eq_true] at h
      simpa using ih cs h.2

theorem containsSeq_iff (sep cs : List Char) :
    containsSeq sep cs = true ↔ ∃ n, startsWith sep (cs.drop n) = true := by
  induction cs with
  | nil =>
    constructor
    · intro h
      exact ⟨0, by simpa [containsSeq] using h⟩
    · rintro ⟨n, hn⟩
      simp only [List.drop_nil] at hn
      simpa [containsSeq] using hn
  | cons c cs ih =>
    simp only [containsSeq, Bool.or_eq_true]
    constructor
    · rintro (h | h)
      · exact ⟨0, by simpa using h⟩
      · obtain ⟨n, hn⟩ := ih.1 h
        exact ⟨n + 1, by simpa using hn⟩
    · rintro ⟨n, hn⟩
      match n with
      | 0 => exact Or.inl (by simpa using hn)
      | n + 1 => exact Or.inr (ih.2 ⟨n, by simpa using hn⟩)

theorem containsSeq_of_append (pre sep cs : List Char)
    (h : containsSeq (pre ++ sep) cs = true) : containsSeq sep cs = true := by
  obtain ⟨n, hn⟩ := (containsSeq_iff _ _).1 h
  refine (containsSeq_iff _ _).2 ⟨n + pre.length, ?_⟩
  rw [← List.drop_drop]
  exact startsWith_drop pre sep _ hn

theorem startsWith_of_dropSeq (pre t r : List Char) (h : dropSeq pre t = some r) :
    startsWith pre t = true := by
  induction pre generalizing t with
  | nil => rfl
  | cons x xs ih =>
    match t with
    | [] => simp [dropSeq] at h
    | c :: cs =>
      simp only [dropSeq] at h
      by_cases hx : x = c
      · rw [if_pos hx] at h
        simp only [startsWith, Bool.and_eq_true]
        exact ⟨by simpa using hx, ih cs h⟩
      · rw [if_neg hx] at h
        cases h

theorem dropWhile_eq_drop (p : Char → Bool) (l : List Char) :
    ∃ n, l.dropWhile p = l.drop n := by
  induction l with
  | nil => exact ⟨0, rfl⟩
  | cons c cs ih =>
    by_cases h : p c
    · obtain ⟨n, hn⟩ := ih
      exact ⟨n + 1, by simpa [List.dropWhile_cons, h] using hn⟩
    · exact ⟨0, by simp [List.dropWhile_cons, h]⟩

theorem isModeLine_contains (line : List Char) (h : isModeLine line = true) :
    containsSeq "├──".data line = true ∨ containsSeq "└──".data line = true := by
  match line with
  | [] => simp [isModeLine] at h
  | c :: rest =>
    simp only [isModeLine, Bool.and_eq_true] at h
    obtain ⟨hsp, h2⟩ := h
    rcases hdw : rest.dropWhile isPySpace with _ | ⟨d, r1⟩
    · rw [hdw] at h2; cases h2
    · rw [hdw] at h2
      simp only [Bool.and_eq_true, Bool.or_eq_true, decide_eq_true_eq] at h2
      obtain ⟨hd, htail⟩ := h2
      have hsw : startsWith "──".data r1 = true := by
        unfold matchModeTail at htail
        rcases hds : dropSeq "──".data r1 with _ | r2
        · rw [hds] at htail; cases htail
        · exact startsWith_of_dropSeq _ _ _ hds
      obtain ⟨n, hn⟩ := dropWhile_eq_drop isPySpace rest
      have hstart : startsWith (d :: "──".data) ((c :: rest).drop (n + 1)) = true := by
        have : (c :: rest).drop (n + 1) = rest.drop n := by simp
        rw [this, ← hn, hdw]
        simp only [startsWith, Bool.and_eq_true]
        exact ⟨by simp, hsw⟩
      rcases hd with hd | hd
      · subst hd
        exact Or.inl ((containsSeq_iff _ _).2 ⟨n + 1, hstart⟩)
      · subst hd
        exact Or.inr ((containsSeq_iff _ _).2 ⟨n + 1, hstart⟩)

/-! Safety of the parser steps on lines with at most one at-sign. -/

/-- A mode text extracted from a split segment of the line counts no more
at-signs than the line itself. -/
theorem modeText_count_le (s0 : Char) (st : List Char) (line seg : List Char)
    (hseg : seg ∈ splitOnSeq s0 st line) :
    (stripChars seg).count '@' ≤ line.count '@' :=
  ((stripChars_sublist seg).trans (splitOnSeq_sublist s0 st line seg hseg)).count_le '@'

theorem count_pos_of_contains (cs : List Char) (a : Char) (h : cs.contains a = true) :
    1 ≤ cs.count a := by
  have hm : a ∈ cs := List.mem_of_elem_eq_true h
  exact List.count_pos_iff.2 hm

/-- When the extracted mode text has at most one at-sign but does contain
one, its at-sign split has exactly the two pieces the unpacking needs. -/
theorem splitAt_two (mode_text : List Char) (hat : mode_text.contains '@' = true)
    (hle : mode_text.count '@' ≤ 1) :
    ∃ r f, splitOnChar '@' mode_text = [r, f] := by
  have h1 := count_pos_of_contains mode_text '@' hat
  have hcount : mode_text.count '@' = 1 := le_antisymm hle h1
  exact List.length_eq_two.1 (by rw [splitOnChar_length, hcount])

theorem pcmStep_ok (st : Option (List Char) × List (List Char × MonitorMode))
    (line : List Char) (h : line.count '@' ≤ 1) :
    ∃ st2, pcmStep st line = .ok st2 := by
  unfold pcmStep
  split
  · exact ⟨_, rfl⟩
  · split
    · exact ⟨_, rfl⟩
    · next mid heq =>
      split
      · next hg =>
        split
        · next head seg tail hsplit =>
          have hmem : seg ∈ splitOnSeq '└' "──".data line := by rw [hsplit]; simp
          by_cases hat : (stripChars seg).contains '@'
          · obtain ⟨r, f, hrf⟩ := splitAt_two (stripChars seg) hat
              (le_trans (modeText_count_le '└' "──".data line seg hmem) h)
            simp only [hat, if_true, hrf]
            exact ⟨_, rfl⟩
          · simp only [Bool.not_eq_true] at hat
            simp only [hat]
            exact ⟨_, rfl⟩
        · next hne =>
          exfalso
          obtain ⟨a, b, t, hsplit⟩ := splitOnSeq_two_of_contains '└' "──".data line hg.1
          exact hne a b t hsplit
      · exact ⟨_, rfl⟩

theorem pcmRun_ok (lines : List (List Char))
    (st : Option (List Char) × List (List Char × MonitorMode))
    (h : ∀ line ∈ lines, line.count '@' ≤ 1) :
    ∃ st2, pcmRun st lines = .ok st2 := by
  induction lines generalizing st with
  | nil => exact ⟨st, rfl⟩
  | cons line rest ih =>
    obtain ⟨st2, h2⟩ := pcmStep_ok st line (h line (by simp))
    simp only [pcmRun, h2]
    exact ih st2 (fun l hl => h l (List.mem_cons_of_mem _ hl))

/-- The segment selected by the mode branch of pmStep is a split segment
of the line, so no exception arises there on a line with at most one
at-sign. -/
theorem pmSeg_ok (line : List Char) (hm : isModeLine line = true) :
    ∃ seg, pmSegSelect line = some seg ∧
      (stripChars seg).count '@' ≤ line.count '@' := by
  unfold pmSegSelect
  by_cases hc1 : containsSeq "├──".data line
  · obtain ⟨a, b, t, hsplit⟩ := splitOnSeq_two_of_contains '├' "──".data line hc1
    refine ⟨b, ?_, modeText_count_le '├' "──".data line b (by rw [hsplit]; simp)⟩
    rw [if_pos hc1, hsplit]
  · have hc2 : containsSeq "└──".data line = true := by
      rcases isModeLine_contains line hm with hcl | hcl
      · exact absurd hcl hc1
      · exact hcl
    obtain ⟨a, b, t, hsplit⟩ := splitOnSeq_two_of_contains '└' "──".data line hc2
    refine ⟨b, ?_, modeText_count_le '└' "──".data line b (by rw [hsplit]; simp)⟩
    rw [if_neg hc1, hsplit]

theorem pmStep_ok (st : List Monitor × Option Monitor)
    (line : List Char) (h : line.count '@' ≤ 1) :
    ∃ st2, pmStep st line = .ok st2 := by
  unfold pmStep
  split
  · exact ⟨_, rfl⟩
  · split
    · exact ⟨_, rfl⟩
    · next m heq =>
      split
      · next hv =>
        split
        · exact ⟨_, rfl⟩
        · next hne =>
          exfalso
          have hc : containsSeq ('V' :: "endor:".data) line = true :=
            containsSeq_of_append "├──".data "Vendor:".data line hv
          obtain ⟨a, b, t, hsplit⟩ := splitOnSeq_two_of_contains 'V' "endor:".data line hc
          exact hne a b t hsplit
      · split
        · next hp =>
          split
          · exact ⟨_, rfl⟩
          · next hne =>
            exfalso
            have hc : containsSeq ('P' :: "roduct:".data) line = true :=
              containsSeq_of_append "├──".data "Product:".data line hp
            obtain ⟨a, b, t, hsplit⟩ := splitOnSeq_two_of_contains 'P' "roduct:".data line hc
            exact hne a b t hsplit
        · split
          · next hm =>
            obtain ⟨seg, hsegeq, hcnt⟩ := pmSeg_ok line hm
            simp only [hsegeq]
            by_cases hat : (stripChars seg).contains '@'
            · obtain ⟨r, f, hrf⟩ := splitAt_two (stripChars seg) hat (le_trans hcnt h)
              simp only [hat, if_true, hrf]
              exact ⟨_, rfl⟩
            · simp only [Bool.not_eq_true] at hat
              simp only [hat]
              exact ⟨_, rfl⟩
          · exact ⟨st, rfl⟩

theorem pmRun_ok (lines : List (List Char)) (st : List Monitor × Option Monitor)
    (h : ∀ line ∈ lines, line.count '@' ≤ 1) :
    ∃ st2, pmRun st lines = .ok st2 := by
  induction lines generalizing st with
  | nil => exact ⟨st, rfl⟩
  | cons line rest ih =>
    obtain ⟨st2, h2⟩ := pmStep_ok st line (h line (by simp))
    simp only [pmRun, h2]
    exact ih st2 (fun l hl => h l (List.mem_cons_of_mem _ hl))

/-! The text phase never attaches a current mode; merging attaches only a
member of the monitor's own mode list. -/

/-- Invariant of the parse_monitors line loop: no current mode yet. -/
def NoCur (st : List Monitor × Option Monitor) : Prop :=
  (∀ m ∈ st.1, m.current_mode = none) ∧ (∀ m, st.2 = some m → m.current_mode = none)

theorem pmFlush_nocur (done : List Monitor) (cur : Option Monitor)
    (h1 : ∀ m ∈ done, m.current_mode = none)
    (h2 : ∀ m, cur = some m → m.current_mode = none) :
    ∀ m ∈ pmFlush done cur, m.current_mode = none := by
  intro m hm
  unfold pmFlush at hm
  rcases cur with _ | c
  · exact h1 m hm
  · rcases List.mem_append.1 hm with hm | hm
    · exact h1 m hm
    · simp only [List.mem_singleton] at hm
      subst hm
      exact h2 m rfl

theorem pmStep_nocur (st : List Monitor × Option Monitor) (line : List Char)
    (st2 : List Monitor × Option Monitor) (hstep : pmStep st line = .ok st2)
    (hn : NoCur st) : NoCur st2 := by
  unfold pmStep at hstep
  split at hstep
  · cases hstep
    refine ⟨pmFlush_nocur st.1 st.2 hn.1 hn.2, ?_⟩
    intro m hm
    cases hm
    rfl
  · split at hstep
    · cases hstep
      exact hn
    · next m heq =>
      have hmn : m.current_mode = none := hn.2 m heq
      split at hstep
      · split at hstep
        · cases hstep
          exact ⟨hn.1, by intro m2 hm2; cases hm2; exact hmn⟩
        · cases hstep
      · split at hstep
        · split at hstep
          · cases hstep
            exact ⟨hn.1, by intro m2 hm2; cases hm2; exact hmn⟩
          · cases hstep
        · split at hstep
          · split at hstep
            · cases hstep
            · next seg hmatch =>
              simp only [] at hstep
              split at hstep
              · split at hstep
                · cases hstep
                  exact ⟨hn.1, by intro m2 hm2; cases hm2; exact hmn⟩
                · cases hstep
              · cases hstep
                exact hn
          · cases hstep
            exact hn

theorem pmRun_nocur (lines : List (List Char)) (st st2 : List Monitor × Option Monitor)
    (h : pmRun st lines = .ok st2) (hn : NoCur st) : NoCur st2 := by
  induction lines generalizing st with
  | nil =>
    simp only [pmRun] at h
    cases h
    exact hn
  | cons line rest ih =>
    simp only [pmRun] at h
    rcases hstep : pmStep st line with e | stm
    · rw [hstep] at h; cases h
    · rw [hstep] at h
      exact ih stm h (pmStep_nocur st line stm hstep hn)

theorem mergeCurrent_mem (monitors : List Monitor) (cfg : Option (List Char))
    (hn : ∀ m ∈ monitors, m.current_mode = none) :
    ∀ mon ∈ mergeCurrent monitors cfg, ∀ c, mon.current_mode = some c →
      c ∈ mon.modes := by
  intro mon hmon c hc
  unfold mergeCurrent at hmon
  rcases cfg with _ | t
  · rw [hn mon hmon] at hc; cases hc
  · rcases hp : parse_current_modes t with e | dict
    · simp only [hp] at hmon
      rw [hn mon hmon] at hc; cases hc
    · simp only [hp] at hmon
      obtain ⟨mon0, hmon0, hfeq⟩ := List.mem_map.1 hmon
      rcases hl : dict.lookup mon0.id with _ | cm
      · simp only [hl] at hfeq
        subst hfeq
        rw [hn mon0 hmon0] at hc; cases hc
      · simp only [hl] at hfeq
        rcases hfind : mon0.modes.find?
            (fun m => m.resolution == cm.resolution && m.refresh_rate == cm.refresh_rate)
            with _ | mfound
        · simp only [hfind] at hfeq
          subst hfeq
          rw [hn mon0 hmon0] at hc; cases hc
        · simp only [hfind] at hfeq
          have hmem := List.mem_of_find?_eq_some hfind
          rw [← hfeq] at hc ⊢
          simp only [Option.some.injEq] at hc
          rw [← hc]
          exact hmem

/-- General half of the merge contract: any current mode a parsed monitor
carries is an element of that monitor's own mode list. -/
theorem parse_monitors_current_mem (out : List Char) (cfg : Option (List Char))
    (ms : List Monitor) (h : parse_monitors out cfg = .ok ms) :
    ∀ mon ∈ ms, ∀ c, mon.current_mode = some c → c ∈ mon.modes := by
  unfold parse_monitors at h
  rcases hrun : pmRun ([], none) (splitOnChar '\n' out) with e | st
  · rw [hrun] at h; cases h
  · rw [hrun] at h
    simp only [Except.ok.injEq] at h
    have hnc : NoCur st := pmRun_nocur _ _ _ hrun
      ⟨(by intro m hm; cases hm), (by intro m hm; cases hm)⟩
    have hflush := pmFlush_nocur st.1 st.2 hnc.1 hnc.2
    rw [← h]
    exact mergeCurrent_mem _ cfg hflush

/-! Claims C4 and C5. -/

instance {ε α : Type} [DecidableEq ε] [DecidableEq α] : DecidableEq (Except ε α) :=
  fun a b =>
    match a, b with
    | .ok x, .ok y =>
      if h : x = y then isTrue (by rw [h]) else isFalse (by intro hc; cases hc; exact h rfl)
    | .error x, .error y =>
      if h : x = y then isTrue (by rw [h]) else isFalse (by intro hc; cases hc; exact h rfl)
    | .ok _, .error _ => isFalse (by intro hc; cases hc)
    | .error _, .ok _ => isFalse (by intro hc; cases hc)

/-- Summary block with one monitor header and one trailing mode line. -/
def exSummary : List Char :=
  ("└──Monitor DP-2 (ASUS VG34)\n│   └──3440x1440@59.973").data

/-- Verbose listing for the same monitor with two mode lines. -/
def exModesOut : List Char :=
  ("└──Monitor DP-2 (ASUS VG34)\n       ├──3440x1440@59.973\n       ├──1920x1080@60.000").data

def exCurMode : MonitorMode := ⟨"3440x1440".data, "59.973".data⟩

def exMonitor : Monitor :=
  ⟨"DP-2".data, "ASUS VG34".data, [], [],
    [exCurMode, ⟨"1920x1080".data, "60.000".data⟩], some exCurMode⟩

/-- C4 counterexample: both parsers raise a ValueError on a line whose
mode text carries two at-signs, although each line is skipped or consumed
by the documented patterns up to that point.  The first input passes the
anchored mode pattern of parse_monitors (the trailing text after the rate
digits is unconstrained), the second passes the leaf-marker test of
parse_current_modes; in both, mode_text.split on the at-sign yields three
parts and the two-name unpacking raises. -/
theorem claim_C4_counterexample :
    parse_monitors ("├──Monitor DP-2 (X)\n  ├──1920x1080@60.0@x").data none = .error () ∧
      parse_current_modes ("└──Monitor D (x)\n│ └──1@2@3").data = .error () := by
  constructor
  · decide
  · decide

/-- C4 amended: the parsers skip lines that do not match their patterns
and raise no exception, provided every input line carries at most one
at-sign; a matched mode line whose extracted text holds two or more
at-signs makes the unpacking of its split raise a ValueError. -/
theorem claim_C4_parsers_skip_amended (text : List Char) (cfg : Option (List Char))
    (h : ∀ line ∈ splitOnChar '\n' text, line.count '@' ≤ 1) :
    (∃ d, parse_current_modes text = .ok d) ∧
      ∃ ms, parse_monitors text cfg = .ok ms := by
  constructor
  · obtain ⟨st2, h2⟩ := pcmRun_ok (splitOnChar '\n' text) (none, []) h
    refine ⟨st2.2, ?_⟩
    unfold parse_current_modes
    rw [h2]
  · obtain ⟨st2, h2⟩ := pmRun_ok (splitOnChar '\n' text) ([], none) h
    refine ⟨mergeCurrent (pmFlush st2.1 st2.2) cfg, ?_⟩
    unfold parse_monitors
    rw [h2]

theorem claim_C4_parsers_skip_amended_witness :
    (∃ d, parse_current_modes exSummary = .ok d) ∧
      ∃ ms, parse_monitors exSummary none = .ok ms :=
  claim_C4_parsers_skip_amended exSummary none (by decide)

/-- C5: parsing a summary block holding exactly one monitor header line
and one trailing mode line yields exactly one entry carrying that line's
resolution and refresh rate; merging it onto the parsed monitor attaches,
by value equality on both fields, an entry of the monitor's own mode
list, shown here on a representative block and in general: every current
mode parse_monitors attaches is an element of that monitor's mode list. -/
theorem claim_C5_current_mode_merge :
    parse_current_modes exSummary = .ok [("DP-2".data, exCurMode)] ∧
      parse_monitors exModesOut (some exSummary) = .ok [exMonitor] ∧
      exMonitor.current_mode = some exCurMode ∧
      exCurMode ∈ exMonitor.modes ∧
      ∀ out cfg ms, parse_monitors out cfg = .ok ms →
        ∀ mon ∈ ms, ∀ c, mon.current_mode = some c → c ∈ mon.modes := by
  refine ⟨by decide, by decide, rfl, by decide, ?_⟩
  intro out cfg ms h mon hmon c hc
  exact parse_monitors_current_mem out cfg ms h mon hmon c hc

theorem claim_C5_current_mode_merge_witness :
    exCurMode ∈ exMonitor.modes :=
  claim_C5_current_mode_merge.2.2.2.2 exModesOut (some exSummary) [exMonitor]
    (by decide) exMonitor (by decide) exCurMode (by decide)

/-! Backup retention (gdctl-instant.py backup_config lines 78-100 and
monitor-switch.py backup_current_config lines 395-414).  The directory is
modelled as the list of snapshot mtimes (equal to the timestamp in the
file name); on the success path a step appends the new snapshot, then
gdctl-instant sorts by mtime descending and keeps the five most recent,
while monitor-switch performs no deletion at all. -/

/-- Strict order on timestamps as a Boolean, for the mtime sort. -/
def natLtB (a b : Nat) : Bool := a < b

/-- One apply's backup work in gdctl-instant.py: write the new snapshot,
then delete every backup beyond the 5 most recent by mtime. -/
def gdctlBackupStep (files : List Nat) (now : Nat) : List Nat :=
  let files2 := files ++ [now]
  if 5 < files2.length then (insSortDesc natLtB files2).take 5 else files2

/-- One apply's backup work in monitor-switch.py: write the new snapshot;
the function has no cleanup of older files. -/
def msBackupStep (files : List Nat) (now : Nat) : List Nat :=
  files ++ [now]

/-- Successive applies starting from an empty backup directory. -/
def runBackups (step : List Nat → Nat → List Nat) (ts : List Nat) : List Nat :=
  ts.foldl step []

theorem insDesc_append_of_lt (x : Nat) (l : List Nat) (h : ∀ y ∈ l, x < y) :
    insDesc natLtB x l = l ++ [x] := by
  induction l with
  | nil => rfl
  | cons y ys ih =>
    have hy : natLtB x y = true := by
      simp only [natLtB, decide_eq_true_eq]
      exact h y (by simp)
    simp only [insDesc, hy, if_true, List.cons_append]
    rw [ih (fun z hz => h z (List.mem_cons_of_mem _ hz))]

theorem insDesc_cons_of_not_lt (x h : Nat) (t : List Nat) (hxh : ¬ x < h) :
    insDesc natLtB x (h :: t) = x :: h :: t := by
  have hb : natLtB x h = false := by
    simp only [natLtB, decide_eq_false_iff_not]
    exact hxh
  simp [insDesc, hb]

theorem insSortDesc_of_ascending (l : List Nat) (h : l.Pairwise (· < ·)) :
    insSortDesc natLtB l = l.reverse := by
  induction l with
  | nil => rfl
  | cons a t ih =>
    simp only [insSortDesc, List.foldr_cons] at *
    rw [ih (List.Pairwise.sublist (List.sublist_cons_self a t) h)]
    rw [insDesc_append_of_lt a t.reverse (by
      intro y hy
      exact (List.pairwise_cons.1 h).1 y (List.mem_reverse.1 hy))]
    simp

theorem insSortDesc_desc_append_big (l : List Nat) (now : Nat)
    (hd : l.Pairwise (· > ·)) (h : ∀ y ∈ l, y < now) :
    insSortDesc natLtB (l ++ [now]) = now :: l := by
  induction l with
  | nil => rfl
  | cons f fs ih =>
    simp only [List.cons_append, insSortDesc, List.foldr_cons] at *
    rw [ih (List.Pairwise.sublist (List.sublist_cons_self f fs) hd)
      (fun y hy => h y (List.mem_cons_of_mem _ hy))]
    have hf : natLtB f now = true := by
      simp only [natLtB, decide_eq_true_eq]
      exact h f (by simp)
    simp only [insDesc, hf, if_true]
    rcases fs with _ | ⟨g, gs⟩
    · rfl
    · rw [insDesc_cons_of_not_lt f g gs (Nat.not_lt.2 (Nat.le_of_lt
        ((List.pairwise_cons.1 hd).1 g (by simp))))]

/-- C3 counterexample: the claim asserts both scripts retain exactly 5
backups after 7 applies; monitor-switch.py's backup step never deletes,
so 7 successive applies leave all 7 snapshot files. -/
theorem claim_C3_counterexample :
    runBackups msBackupStep [1, 2, 3, 4, 5, 6, 7] = [1, 2, 3, 4, 5, 6, 7] ∧
      ¬ (runBackups msBackupStep [1, 2, 3, 4, 5, 6, 7]).length = 5 := by
  constructor
  · rfl
  · decide

/-- C3 amended: after 7 successive applies at strictly increasing
timestamps, gdctl-instant.py's backup step leaves exactly the 5 most
recently created snapshots (most recent first), while monitor-switch.py's
backup step deletes nothing and leaves all 7. -/
theorem claim_C3_backup_retention (t1 t2 t3 t4 t5 t6 t7 : Nat)
    (h12 : t1 < t2) (h23 : t2 < t3) (h34 : t3 < t4) (h45 : t4 < t5)
    (h56 : t5 < t6) (h67 : t6 < t7) :
    runBackups gdctlBackupStep [t1, t2, t3, t4, t5, t6, t7] = [t7, t6, t5, t4, t3] ∧
      (runBackups gdctlBackupStep [t1, t2, t3, t4, t5, t6, t7]).length = 5 ∧
      runBackups msBackupStep [t1, t2, t3, t4, t5, t6, t7] =
        [t1, t2, t3, t4, t5, t6, t7] := by
  have hrun : runBackups gdctlBackupStep [t1, t2, t3, t4, t5, t6, t7] =
      [t7, t6, t5, t4, t3] := by
    have e1 : gdctlBackupStep [] t1 = [t1] := by simp [gdctlBackupStep]
    have e2 : gdctlBackupStep [t1] t2 = [t1, t2] := by simp [gdctlBackupStep]
    have e3 : gdctlBackupStep [t1, t2] t3 = [t1, t2, t3] := by simp [gdctlBackupStep]
    have e4 : gdctlBackupStep [t1, t2, t3] t4 = [t1, t2, t3, t4] := by
      simp [gdctlBackupStep]
    have e5 : gdctlBackupStep [t1, t2, t3, t4] t5 = [t1, t2, t3, t4, t5] := by
      simp [gdctlBackupStep]
    have s6 : gdctlBackupStep [t1, t2, t3, t4, t5] t6 = [t6, t5, t4, t3, t2] := by
      unfold gdctlBackupStep
      rw [if_pos (by simp)]
      rw [show ([t1, t2, t3, t4, t5] ++ [t6]) = [t1, t2, t3, t4, t5, t6] from rfl]
      rw [insSortDesc_of_ascending _ (by
        simp [List.pairwise_cons]
        omega)]
      rfl
    have s7 : gdctlBackupStep [t6, t5, t4, t3, t2] t7 = [t7, t6, t5, t4, t3] := by
      unfold gdctlBackupStep
      rw [if_pos (by simp)]
      rw [insSortDesc_desc_append_big [t6, t5, t4, t3, t2] t7 (by
          simp [List.pairwise_cons]
          omega)
        (by
          intro y hy
          simp only [List.mem_cons, List.not_mem_nil, or_false] at hy
          rcases hy with h | h | h | h | h <;> subst h <;> omega)]
      rfl
    unfold runBackups
    simp only [List.foldl_cons, List.foldl_nil]
    rw [e1, e2, e3, e4, e5, s6, s7]
  refine ⟨hrun, by rw [hrun]; rfl, by rfl⟩

theorem claim_C3_backup_retention_witness :
    runBackups gdctlBackupStep [1, 2, 3, 4, 5, 6, 7] = [7, 6, 5, 4, 3] ∧
      (runBackups gdctlBackupStep [1, 2, 3, 4, 5, 6, 7]).length = 5 ∧
      runBackups msBackupStep [1, 2, 3, 4, 5, 6, 7] = [1, 2, 3, 4, 5, 6, 7] :=
  claim_C3_backup_retention 1 2 3 4 5 6 7 (by decide) (by decide) (by decide)
    (by decide) (by decide) (by decide)

/-! Preset appliers of gdctl-instant.py.  The external command results are
explicit parameters; each trace records which mutating invocations were
built and run.  Printed informational text is not modelled. -/

/-- Keys of the MONITORS table (gdctl-instant.py lines 13-42). -/
def MONITORS : List String := ["DP-2", "DP-3", "DP-4", "eDP-1"]

/-- Trace of restore_triple_monitor. -/
structure TripleTrace where
  missing : List String
  ranBackup : Bool
  setCmds : Nat
  success : Bool
deriving DecidableEq, Repr

/-- restore_triple_monitor (lines 305-351): refuse unless DP-2, DP-3 and
DP-4 are all connected; otherwise back up and run the one set command,
whose result is the setResult parameter.  Python reports
sorted(required - connected); filtering the sorted required list yields
that same sorted order. -/
def restore_triple_monitor (connected : List String) (setResult : Bool) : TripleTrace :=
  let required : List String := ["DP-2", "DP-3", "DP-4"]
  let missing := required.filter (fun r => ¬ connected.contains r)
  if missing ≠ [] then
    { missing := missing, ranBackup := false, setCmds := 0, success := false }
  else
    { missing := [], ranBackup := true, setCmds := 1, success := setResult }

/-- C6: whenever at least one of the three required identifiers is not
connected, the triple preset reports exactly the missing identifiers,
returns failure, runs no set command and writes no backup. -/
theorem claim_C6_triple_refusal (connected : List String) (setResult : Bool)
    (hmiss : ∃ r ∈ (["DP-2", "DP-3", "DP-4"] : List String),
      ¬ connected.contains r) :
    (restore_triple_monitor connected setResult).success = false ∧
      (restore_triple_monitor connected setResult).setCmds = 0 ∧
      (restore_triple_monitor connected setResult).ranBackup = false ∧
      ∀ r, (r ∈ (restore_triple_monitor connected setResult).missing ↔
        (r ∈ (["DP-2", "DP-3", "DP-4"] : List String) ∧ ¬ connected.contains r)) := by
  obtain ⟨r0, hr0, hnc0⟩ := hmiss
  have hmem : r0 ∈ (["DP-2", "DP-3", "DP-4"] : List String).filter
      (fun r => ¬ connected.contains r) :=
    List.mem_filter.2 ⟨hr0, by simpa using hnc0⟩
  have hne : (["DP-2", "DP-3", "DP-4"] : List String).filter
      (fun r => ¬ connected.contains r) ≠ [] := by
    intro hnil
    rw [hnil] at hmem
    cases hmem
  unfold restore_triple_monitor
  rw [if_pos hne]
  refine ⟨rfl, rfl, rfl, ?_⟩
  intro r
  constructor
  · intro hr
    have := List.mem_filter.1 hr
    exact ⟨this.1, by simpa using this.2⟩
  · intro ⟨h1, h2⟩
    exact List.mem_filter.2 ⟨h1, by simpa using h2⟩

theorem claim_C6_triple_refusal_witness :
    (restore_triple_monitor ["eDP-1", "DP-2"] true).success = false ∧
      (restore_triple_monitor ["eDP-1", "DP-2"] true).setCmds = 0 ∧
      (restore_triple_monitor ["eDP-1", "DP-2"] true).ranBackup = false ∧
      ∀ r, (r ∈ (restore_triple_monitor ["eDP-1", "DP-2"] true).missing ↔
        (r ∈ (["DP-2", "DP-3", "DP-4"] : List String) ∧
          ¬ (["eDP-1", "DP-2"] : List String).contains r)) :=
  claim_C6_triple_refusal ["eDP-1", "DP-2"] true ⟨"DP-3", by decide, by decide⟩

/-- Trace of switch_to_single_monitor: how many set commands ran, and the
returned value (none when an exception escaped). -/
structure SwitchTrace where
  setCmds : Nat
  result : Option Bool
deriving DecidableEq, Repr

/-- backup_config (lines 78-100).  showRes is the query's stdout when it
succeeds (a failed query silently skips the backup); writeRes is the
outcome of creating and writing the snapshot file.  This script has no
try/except here, so a write error propagates to the caller.  The pruning
of old backups is modelled by gdctlBackupStep. -/
def backup_config (showRes : Option String) (writeRes : Except String Unit) :
    Except String (Option String) :=
  match showRes with
  | none => .ok none
  | some _ =>
    match writeRes with
    | .error e => .error e
    | .ok _ => .ok (some "backup-file")

/-- switch_to_single_monitor (lines 102-149): refuse unknown or
disconnected monitors, then back up (an escaping backup exception aborts)
and run the one set command. -/
def switch_to_single_monitor (monitor_id : String) (connected : List String)
    (showRes : Option String) (writeRes : Except String Unit) (setOk : Bool) :
    SwitchTrace :=
  if ¬ MONITORS.contains monitor_id then ⟨0, some false⟩
  else if ¬ connected.contains monitor_id then ⟨0, some false⟩
  else
    match backup_config showRes writeRes with
    | .error _ => ⟨0, none⟩
    | .ok _ => ⟨1, some setOk⟩

/-- Trace of apply_configuration in monitor-switch.py. -/
structure ApplyTrace where
  backupFile : Option String
  ranSet : Bool
  success : Bool
deriving DecidableEq, Repr

/-- backup_current_config (monitor-switch.py lines 395-414): the try
swallows every failure (including a write error), printing a warning and
returning None; a failed query falls through to None silently. -/
def backup_current_config (showRes : Option String) (writeRes : Except String Unit) :
    Option String :=
  match showRes with
  | none => none
  | some _ =>
    match writeRes with
    | .error _ => none
    | .ok _ => some "backup-file"

/-- apply_configuration (monitor-switch.py lines 417-436): back up, then
always build and run the set command; its success is the returned value. -/
def apply_configuration (showRes : Option String) (writeRes : Except String Unit)
    (setOk : Bool) : ApplyTrace :=
  { backupFile := backup_current_config showRes writeRes,
    ranSet := true, success := setOk }

/-- C8 counterexample: in gdctl-instant.py a backup write failure is not
caught: it aborts switch_to_single_monitor before the set command is
attempted, contradicting warning-only handling in every apply path. -/
theorem claim_C8_counterexample :
    backup_config (some "cfg") (.error "disk full") = .error "disk full" ∧
      (switch_to_single_monitor "DP-2" ["DP-2"] (some "cfg")
        (.error "disk full") true).setCmds = 0 ∧
      (switch_to_single_monitor "DP-2" ["DP-2"] (some "cfg")
        (.error "disk full") true).result = none := by
  refine ⟨rfl, ?_, ?_⟩ <;> decide

/-- C8 amended: monitor-switch.py catches every backup failure with a
warning and always goes on to run the set command; gdctl-instant.py
continues past a failed configuration query (silently skipping the
snapshot) but lets a snapshot write error propagate, aborting before the
set command. -/
theorem claim_C8_backup_warning_amended :
    (∀ (showRes : Option String) (writeRes : Except String Unit) (setOk : Bool),
      (apply_configuration showRes writeRes setOk).ranSet = true ∧
        (apply_configuration showRes writeRes setOk).success = setOk) ∧
    (∀ (mid : String) (conn : List String) (showRes : Option String) (setOk : Bool),
      MONITORS.contains mid = true → conn.contains mid = true →
        (switch_to_single_monitor mid conn showRes (.ok ()) setOk).setCmds = 1) ∧
    (∀ (mid : String) (conn : List String) (wr : Except String Unit) (setOk : Bool),
      MONITORS.contains mid = true → conn.contains mid = true →
        (switch_to_single_monitor mid conn none wr setOk).setCmds = 1) ∧
    (∀ (mid : String) (conn : List String) (s e : String) (setOk : Bool),
      MONITORS.contains mid = true → conn.contains mid = true →
        (switch_to_single_monitor mid conn (some s) (.error e) setOk).setCmds = 0 ∧
          (switch_to_single_monitor mid conn (some s) (.error e) setOk).result = none) := by
  refine ⟨?_, ?_, ?_, ?_⟩
  · intro showRes writeRes setOk
    exact ⟨rfl, rfl⟩
  · intro mid conn showRes setOk hk hc
    unfold switch_to_single_monitor
    rw [if_neg (not_not_intro hk), if_neg (not_not_intro hc)]
    rcases showRes with _ | s <;> rfl
  · intro mid conn wr setOk hk hc
    unfold switch_to_single_monitor
    rw [if_neg (not_not_intro hk), if_neg (not_not_intro hc)]
    rfl
  · intro mid conn s e setOk hk hc
    unfold switch_to_single_monitor
    rw [if_neg (not_not_intro hk), if_neg (not_not_intro hc)]
    exact ⟨rfl, rfl⟩

theorem claim_C8_backup_warning_amended_witness :
    (switch_to_single_monitor "DP-2" ["DP-2"] (some "cfg") (.ok ()) true).setCmds = 1 :=
  claim_C8_backup_warning_amended.2.1 "DP-2" ["DP-2"] (some "cfg") true
    (by decide) (by decide)

/-- Trace of setup_dual_monitor. -/
structure DualTrace where
  externalMonitor : Option String
  attempts : List String
  retried : Bool
  success : Bool
deriving DecidableEq, Repr

/-- setup_dual_monitor (lines 212-303): require the laptop panel, pick
the first connected external in priority order DP-3, DP-4, DP-2, run the
dual set command, and on failure retry once with the alternate LG
resolution only when the failure text mentions a mode and the external is
DP-3.  attempts lists the external mode string of each set invocation;
primaryErr is the stderr of the first attempt, retryOk the result of the
retry. -/
def setup_dual_monitor (connected : List String) (primaryOk : Bool)
    (primaryErr : List Char) (retryOk : Bool) : DualTrace :=
  if ¬ connected.contains "eDP-1" then ⟨none, [], false, false⟩
  else
    match ["DP-3", "DP-4", "DP-2"].find? (fun m => connected.contains m) with
    | none => ⟨none, [], false, false⟩
    | some ext =>
      let external_mode : String :=
        if ext = "DP-3" then "1920x1080@60.000"
        else if ext = "DP-4" then "3440x1440@59.973"
        else if ext = "DP-2" then "3440x1440@59.973"
        else "1920x1080@60.000"
      if primaryOk then ⟨some ext, [external_mode], false, true⟩
      else if containsSeq "mode".data (pyLower primaryErr) ∧ ext = "DP-3" then
        ⟨some ext, [external_mode, "2560x1080@60.000"], true, retryOk⟩
      else ⟨some ext, [external_mode], false, false⟩

/-- C7 counterexample: with the laptop panel and DP-4 connected, a failed
primary attempt whose error text is mode-related triggers no retry: the
hard-coded fallback also requires the external monitor to be DP-3. -/
theorem claim_C7_counterexample :
    containsSeq "mode".data
      (pyLower ("Mode 3440x1440@59.973 not available").data) = true ∧
      (setup_dual_monitor ["eDP-1", "DP-4"] false
        ("Mode 3440x1440@59.973 not available").data true).retried = false ∧
      (setup_dual_monitor ["eDP-1", "DP-4"] false
        ("Mode 3440x1440@59.973 not available").data true).success = false := by
  refine ⟨by decide, by decide, by decide⟩

/-- C7 amended: the dual preset retries exactly once, with the alternate
resolution 2560x1080@60.000, precisely when the primary attempt fails
with mode-related error text and the chosen external monitor is DP-3
(the laptop panel and DP-3 being connected); in every other case, and in
the single-monitor path, no retry happens. -/
theorem claim_C7_fallback_retry_amended (connected : List String) (primaryOk : Bool)
    (primaryErr : List Char) (retryOk : Bool) :
    ((setup_dual_monitor connected primaryOk primaryErr retryOk).retried = true ↔
      (connected.contains "eDP-1" = true ∧ connected.contains "DP-3" = true ∧
        primaryOk = false ∧
        containsSeq "mode".data (pyLower primaryErr) = true)) ∧
    (setup_dual_monitor connected primaryOk primaryErr retryOk).attempts.length ≤ 2 ∧
    ((setup_dual_monitor connected primaryOk primaryErr retryOk).retried = true →
      (setup_dual_monitor connected primaryOk primaryErr retryOk).attempts =
        ["1920x1080@60.000", "2560x1080@60.000"]) ∧
    ((setup_dual_monitor connected primaryOk primaryErr retryOk).retried = false →
      (setup_dual_monitor connected primaryOk primaryErr retryOk).attempts.length ≤ 1) ∧
    (∀ (mid : String) (showRes : Option String) (wr : Except String Unit) (setOk : Bool),
      (switch_to_single_monitor mid connected showRes wr setOk).setCmds ≤ 1) := by
  have hsingle : ∀ (mid : String) (showRes : Option String) (wr : Except String Unit)
      (setOk : Bool),
      (switch_to_single_monitor mid connected showRes wr setOk).setCmds ≤ 1 := by
    intro mid showRes wr setOk
    unfold switch_to_single_monitor
    split
    · exact Nat.zero_le 1
    · split
      · exact Nat.zero_le 1
      · split
        · exact Nat.zero_le 1
        · exact le_refl 1
  by_cases he : connected.contains "eDP-1"
  · have heM : "eDP-1" ∈ connected := List.mem_of_elem_eq_true he
    by_cases h3 : connected.contains "DP-3"
    · have h3M : "DP-3" ∈ connected := List.mem_of_elem_eq_true h3
      have hfind : (["DP-3", "DP-4", "DP-2"] : List String).find?
          (fun m => connected.contains m) = some "DP-3" :=
        List.find?_cons_of_pos _ h3
      by_cases hp : primaryOk
      · have hp2 : primaryOk = true := by simpa using hp
        have htr : setup_dual_monitor connected primaryOk primaryErr retryOk =
            ⟨some "DP-3", ["1920x1080@60.000"], false, true⟩ := by
          unfold setup_dual_monitor
          rw [if_neg (not_not_intro he), hfind, hp2]
          rfl
        rw [htr]
        refine ⟨by simp [hp2], by simp, by simp, by simp, hsingle⟩
      · have hp2 : primaryOk = false := by simpa using hp
        by_cases hm : containsSeq "mode".data (pyLower primaryErr) = true
        · have htr : setup_dual_monitor connected primaryOk primaryErr retryOk =
              ⟨some "DP-3", ["1920x1080@60.000", "2560x1080@60.000"], true, retryOk⟩ := by
            unfold setup_dual_monitor
            rw [if_neg (not_not_intro he), hfind, hp2]
            show (if (false : Bool) then _ else
              if containsSeq "mode".data (pyLower primaryErr) ∧ ("DP-3" : String) = "DP-3"
              then _ else _) = _
            rw [if_neg (by simp), if_pos ⟨hm, rfl⟩]
            rfl
          rw [htr]
          refine ⟨by simp [heM, h3M, hp2, hm], by simp, by simp, by simp, hsingle⟩
        · have htr : setup_dual_monitor connected primaryOk primaryErr retryOk =
              ⟨some "DP-3", ["1920x1080@60.000"], false, false⟩ := by
            unfold setup_dual_monitor
            rw [if_neg (not_not_intro he), hfind, hp2]
            show (if (false : Bool) then _ else
              if containsSeq "mode".data (pyLower primaryErr) ∧ ("DP-3" : String) = "DP-3"
              then _ else _) = _
            rw [if_neg (by simp), if_neg (by intro hc; exact hm hc.1)]
            rfl
          rw [htr]
          refine ⟨by simp [hm], by simp, by simp, by simp, hsingle⟩
    · have h3N : "DP-3" ∉ connected := fun hmem => h3 (List.elem_eq_true_of_mem hmem)
      rcases hfind : (["DP-3", "DP-4", "DP-2"] : List String).find?
          (fun m => connected.contains m) with _ | ext
      · have htr : setup_dual_monitor connected primaryOk primaryErr retryOk =
            ⟨none, [], false, false⟩ := by
          unfold setup_dual_monitor
          rw [if_neg (not_not_intro he), hfind]
        rw [htr]
        refine ⟨by simp [h3N], by simp, by simp, by simp, hsingle⟩
      · have hext : ¬ (ext = "DP-3") := by
          intro hc
          subst hc
          exact h3 (List.find?_some hfind)
        by_cases hp : primaryOk
        · have hp2 : primaryOk = true := by simpa using hp
          have htr : setup_dual_monitor connected primaryOk primaryErr retryOk =
              ⟨some ext, [if ext = "DP-3" then "1920x1080@60.000"
                else if ext = "DP-4" then "3440x1440@59.973"
                else if ext = "DP-2" then "3440x1440@59.973"
                else "1920x1080@60.000"], false, true⟩ := by
            unfold setup_dual_monitor
            rw [if_neg (not_not_intro he), hfind, hp2]
            rfl
          rw [htr]
          refine ⟨by simp [h3N], by simp, by simp, by simp, hsingle⟩
        · have hp2 : primaryOk = false := by simpa using hp
          have htr : setup_dual_monitor connected primaryOk primaryErr retryOk =
              ⟨some ext, [if ext = "DP-3" then "1920x1080@60.000"
                else if ext = "DP-4" then "3440x1440@59.973"
                else if ext = "DP-2" then "3440x1440@59.973"
                else "1920x1080@60.000"], false, false⟩ := by
            unfold setup_dual_monitor
            rw [if_neg (not_not_intro he), hfind, hp2]
            show (if (false : Bool) then _ else
              if containsSeq "mode".data (pyLower primaryErr) ∧ ext = "DP-3"
              then _ else _) = _
            rw [if_neg (by simp), if_neg (by intro hc; exact hext hc.2)]
          rw [htr]
          refine ⟨by simp [h3N], by simp, by simp, by simp, hsingle⟩
  · have heN : "eDP-1" ∉ connected := fun hmem => he (List.elem_eq_true_of_mem hmem)
    have htr : setup_dual_monitor connected primaryOk primaryErr retryOk =
        ⟨none, [], false, false⟩ := by
      unfold setup_dual_monitor
      rw [if_pos he]
    rw [htr]
    refine ⟨by simp [heN], by simp, by simp, by simp, hsingle⟩

theorem claim_C7_fallback_retry_amended_witness :
    (setup_dual_monitor ["eDP-1", "DP-3"] false ("No matching mode").data true).attempts =
      ["1920x1080@60.000", "2560x1080@60.000"] :=
  (claim_C7_fallback_retry_amended ["eDP-1", "DP-3"] false
    ("No matching mode").data true).2.2.1 (by decide)

/-- confirm_switch (monitor-switch.py lines 374-392): read answers until a
decisive one; y or yes accepts, n, no or an empty answer declines, any
other answer reprompts.  The answer list holds the successive inputs;
none means every answer was indecisive. -/
def confirm_switch : List (List Char) → Option Bool
  | [] => none
  | ans :: rest =>
    if pyLower (stripChars ans) = "y".data ∨ pyLower (stripChars ans) = "yes".data then
      some true
    else if pyLower (stripChars ans) = "n".data ∨ pyLower (stripChars ans) = "no".data ∨
        pyLower (stripChars ans) = [] then
      some false
    else confirm_switch rest

/-- C9: the confirmation accepts only an explicit y or yes (after
stripping and lowercasing), an empty answer or n or no declines, and in
particular a run that accepts contains an affirmative answer, so the
empty-input default declines. -/
theorem claim_C9_confirm_default_decline :
    (∀ rest, confirm_switch ([] :: rest) = some false) ∧
    (∀ ans rest, (pyLower (stripChars ans) = "y".data ∨
        pyLower (stripChars ans) = "yes".data) →
      confirm_switch (ans :: rest) = some true) ∧
    (∀ ans rest, (pyLower (stripChars ans) = "n".data ∨
        pyLower (stripChars ans) = "no".data ∨ pyLower (stripChars ans) = []) →
      confirm_switch (ans :: rest) = some false) ∧
    (∀ answers, confirm_switch answers = some true →
      ∃ a ∈ answers, pyLower (stripChars a) = "y".data ∨
        pyLower (stripChars a) = "yes".data) := by
  refine ⟨?_, ?_, ?_, ?_⟩
  · intro rest
    rfl
  · intro ans rest h
    unfold confirm_switch
    rw [if_pos h]
  · intro ans rest h
    unfold confirm_switch
    rw [if_neg ?_, if_pos h]
    intro hc
    rcases h with h | h | h <;> rcases hc with hc | hc <;> rw [h] at hc <;> cases hc
  · intro answers
    induction answers with
    | nil => intro h; cases h
    | cons a rest ih =>
      intro h
      unfold confirm_switch at h
      by_cases h1 : pyLower (stripChars a) = "y".data ∨ pyLower (stripChars a) = "yes".data
      · exact ⟨a, by simp, h1⟩
      · rw [if_neg h1] at h
        by_cases h2 : pyLower (stripChars a) = "n".data ∨
            pyLower (stripChars a) = "no".data ∨ pyLower (stripChars a) = []
        · rw [if_pos h2] at h
          cases h
        · rw [if_neg h2] at h
          obtain ⟨b, hb, hyes⟩ := ih h
          exact ⟨b, List.mem_cons_of_mem a hb, hyes⟩

theorem claim_C9_confirm_default_decline_witness :
    confirm_switch [(" YES ").data] = some true ∧
      confirm_switch [("n").data] = some false ∧
      confirm_switch [[]] = some false :=
  ⟨claim_C9_confirm_default_decline.2.1 (" YES ").data [] (by decide),
    claim_C9_confirm_default_decline.2.2.1 ("n").data [] (by decide),
    claim_C9_confirm_default_decline.1 []⟩

end GnomeMonitor
